import Mathlib

/-!
Verification of the core subsystems of the CMU 15-445 storage engine
(buffer pool, LRU-K replacer, B+tree index, lock manager) against a
shallow embedding of the C++ sources.  Each C++ method is translated
into an executable Lean function over an explicit state; machine `int`
and `size_t` values are modelled as `Int`/`Nat`, with the `INT_MAX`
sentinel kept explicit where the source relies on it.
-/

set_option autoImplicit false

/-! ## Association-list helpers

The C++ sources use `std::unordered_map`; we embed those maps as
association lists with overwrite-on-insert semantics. -/

/-- Look up a key in an association list. -/
def lookupA {α : Type} {β : Type} [DecidableEq α] (l : List (α × β)) (a : α) : Option β :=
  match l with
  | [] => none
  | p :: rest => if p.1 = a then some p.2 else lookupA rest a

/-- Insert (overwriting any previous binding for the key). -/
def insertA {α : Type} {β : Type} [DecidableEq α] (l : List (α × β)) (a : α) (b : β) :
    List (α × β) :=
  match l with
  | [] => [(a, b)]
  | p :: rest => if p.1 = a then (a, b) :: rest else p :: insertA rest a b

/-- Erase all bindings for a key. -/
def eraseA {α : Type} {β : Type} [DecidableEq α] (l : List (α × β)) (a : α) : List (α × β) :=
  l.filter (fun p => p.1 ≠ a)

/-! ## LRU-K replacer (src/buffer/lru_k_replacer.cpp)

State of `LRUKReplacer`.  `lru_` is a `std::list<frame_id_t>` holding the
tracked frames in insertion order (the `splice` call that would move a
frame on re-access is commented out in the source, so the order is the
order of first access since tracking).  `hast_` maps a frame to the
vector of its `k_` most recent access timestamps, most recent first,
padded with `INT_MAX`.  `cache_` maps exactly the tracked frames to list
iterators and is kept in lockstep with `lru_`/`hast_` on every path, so
the embedding represents a `cache_.find` test as a `hast_` lookup.
`first_access` is a specification-only ghost field (absent from the
source) recording the timestamp of each tracked frame's first access
since it was inserted; it is never read by the operational code. -/

def INT_MAX : Nat := 2147483647

structure ReplacerState where
  replacer_size : Nat
  k : Nat
  current_timestamp : Nat
  lru : List Nat
  hast : List (Nat × List Nat)
  is_evictable : List Nat
  first_access : List (Nat × Nat)
  deriving Repr, DecidableEq

/-- Initial replacer: `LRUKReplacer(num_frames, k)`. -/
def ReplacerState.init (num_frames k : Nat) : ReplacerState :=
  { replacer_size := num_frames, k := k, current_timestamp := 0,
    lru := [], hast := [], is_evictable := [], first_access := [] }

/-- Reads `hast_[id]` (defined whenever `id` is tracked). -/
def vecOf (s : ReplacerState) (f : Nat) : List Nat :=
  (lookupA s.hast f).getD []

/-- Reads `hast_[id][k_-1]`, the oldest of the `k` stored timestamps. -/
def kthOf (s : ReplacerState) (f : Nat) : Nat :=
  (vecOf s f).getD (s.k - 1) 0

/-- Ghost read of the first-access timestamp. -/
def faOf (s : ReplacerState) (f : Nat) : Nat :=
  (lookupA s.first_access f).getD 0

/-- The frame is tracked: `cache_.find(frame_id) != cache_.end()`. -/
def tracked (s : ReplacerState) (f : Nat) : Bool :=
  (lookupA s.hast f).isSome

/-- Erase every trace of a frame: the `is_evictable_.erase; cache_.erase;
hast_.erase; lru_.remove` sequence that both `Evict` and `RecordAccess`
perform on a victim. -/
def removeFrame (s : ReplacerState) (f : Nat) : ReplacerState :=
  { s with is_evictable := s.is_evictable.filter (· ≠ f),
           hast := eraseA s.hast f,
           lru := s.lru.filter (· ≠ f),
           first_access := eraseA s.first_access f }

/-- The `++current_timestamp_;` line at the top of every replacer method. -/
def bumpClock (s : ReplacerState) : ReplacerState :=
  { s with current_timestamp := s.current_timestamp + 1 }

/-- The scan loop of `LRUKReplacer::Evict`: walk `lru_` in order; an
evictable frame with fewer than `k` accesses (sentinel `INT_MAX` in the
last slot) is returned immediately; otherwise the frame with the largest
`current_timestamp_ - hast_[id][k_-1]` seen so far is remembered (strict
`>`, so the earliest maximiser wins).  `s` here already carries the
incremented `current_timestamp_`. -/
def evictLoop (s : ReplacerState) : List Nat → Nat → Option Nat → Option Nat
  | [], _, cand => cand
  | id :: rest, mmax, cand =>
    if id ∈ s.is_evictable then
      if kthOf s id = INT_MAX then
        some id
      else
        if s.current_timestamp - kthOf s id > mmax then
          evictLoop s rest (s.current_timestamp - kthOf s id) (some id)
        else evictLoop s rest mmax cand
    else evictLoop s rest mmax cand

/-- `LRUKReplacer::Evict`: returns the chosen frame (if any) and the
state after removing it. -/
def evict (s : ReplacerState) : Option Nat × ReplacerState :=
  match evictLoop (bumpClock s) (bumpClock s).lru 0 none with
  | some f => (some f, removeFrame (bumpClock s) f)
  | none => (none, bumpClock s)

/-- The capacity scan inside `LRUKReplacer::RecordAccess`, run when a new
frame arrives and `lru_.size() == replacer_size_`.  It mirrors `Evict`
except that a frame with fewer than `k` accesses is erased on the spot
and the scan continues.  (At that point the source falls through and
reads the just-erased `hast_[id]` entry out of bounds; the embedding
takes the branch as erasing the frame and moving to the next one.  No
theorem below depends on a state reached through that branch.)  Returns
the state after the in-loop erasures together with the final `mmax`
candidate, which the caller then erases. -/
def overflowLoop (s : ReplacerState) : List Nat → Nat → Option Nat →
    ReplacerState × Option Nat
  | [], _, cand => (s, cand)
  | id :: rest, mmax, cand =>
    if id ∈ s.is_evictable then
      if kthOf s id = INT_MAX then
        overflowLoop (removeFrame s id) rest mmax cand
      else
        if s.current_timestamp - kthOf s id > mmax then
          overflowLoop s rest (s.current_timestamp - kthOf s id) (some id)
        else overflowLoop s rest mmax cand
    else overflowLoop s rest mmax cand

/-- The re-access branch of `RecordAccess`: shift the timestamp vector
right by one slot and write the new timestamp at slot 0. -/
def recordAccessTracked (s1 : ReplacerState) (fid : Nat) : ReplacerState :=
  { s1 with hast := insertA s1.hast fid
              (s1.current_timestamp :: (vecOf s1 fid).take (s1.k - 1)) }

/-- The at-capacity eviction phase of `RecordAccess` for a new frame:
run the capacity scan when `lru_.size() == replacer_size_`, then erase
the remembered candidate, if any. -/
def recordAccessScan (s1 : ReplacerState) : ReplacerState :=
  if s1.lru.length = s1.replacer_size then
    match overflowLoop s1 s1.lru 0 none with
    | (s', some pop) => removeFrame s' pop
    | (s', none) => s'
  else s1

/-- The insertion phase of `RecordAccess` for an untracked frame: the
final `push_back`/`emplace` block of the source, which appends the frame
to `lru_` and installs a fresh timestamp vector.  The ghost
`first_access` entry is set to the same timestamp. -/
def insertFreshFrame (s2 : ReplacerState) (fid : Nat) : ReplacerState :=
  { s2 with lru := s2.lru ++ [fid],
            hast := insertA s2.hast fid
              (s2.current_timestamp :: List.replicate (s2.k - 1) INT_MAX),
            first_access := insertA s2.first_access fid s2.current_timestamp }

/-- `LRUKReplacer::RecordAccess`. -/
def recordAccess (s : ReplacerState) (fid : Nat) : ReplacerState :=
  if tracked (bumpClock s) fid then recordAccessTracked (bumpClock s) fid
  else insertFreshFrame (recordAccessScan (bumpClock s)) fid

/-- `LRUKReplacer::SetEvictable`. -/
def setEvictable (s : ReplacerState) (fid : Nat) (b : Bool) : ReplacerState :=
  if tracked (bumpClock s) fid then
    if b then
      { bumpClock s with is_evictable :=
          if fid ∈ (bumpClock s).is_evictable then (bumpClock s).is_evictable
          else (bumpClock s).is_evictable ++ [fid] }
    else
      { bumpClock s with is_evictable := (bumpClock s).is_evictable.filter (· ≠ fid) }
  else bumpClock s

/-- Client-visible replacer operations (`Evict` is applied separately). -/
inductive ReplOp where
  | ra (f : Nat)
  | se (f : Nat) (b : Bool)
  deriving Repr, DecidableEq

def applyReplOp (s : ReplacerState) : ReplOp → ReplacerState
  | .ra f => recordAccess s f
  | .se f b => setEvictable s f b

def runRepl (num_frames k : Nat) (ops : List ReplOp) : ReplacerState :=
  ops.foldl applyReplOp (ReplacerState.init num_frames k)

/-- Repeatedly evict, collecting the returned frames. -/
def evictSeq (s : ReplacerState) : Nat → List Nat
  | 0 => []
  | n + 1 =>
    match evict s with
    | (some f, s') => f :: evictSeq s' n
    | (none, _) => []

/-- The literal boundary scenario of the spec: LRU-2, frames 1 2 3 4
accessed once, frame 1 a second time, all made evictable. -/
def c1Ops : List ReplOp :=
  [.ra 1, .ra 2, .ra 3, .ra 4, .ra 1, .se 1 true, .se 2 true, .se 3 true, .se 4 true]

example : evictSeq (runRepl 4 2 c1Ops) 4 = [2, 3, 4, 1] := by decide

/-! ### Backward K-distance and the victim specification

Under the state invariant below, a tracked frame's timestamp vector is
its recorded timestamps (all below `INT_MAX`) padded with the `INT_MAX`
sentinel, so the last slot holds `INT_MAX` exactly when the frame has
fewer than `k` recorded accesses; that is how the embedding renders the
spec's "+infinity backward K-distance". -/

/-- Backward K-distance at clock value `cur`; `none` is +infinity. -/
def bdist (cur : Nat) (s : ReplacerState) (f : Nat) : Option Nat :=
  if kthOf s f = INT_MAX then none else some (cur - kthOf s f)

/-- Order on backward distances, `none` being the top element. -/
def dLE : Option Nat → Option Nat → Prop
  | _, none => True
  | none, some _ => False
  | some a, some b => a ≤ b

/-- Strict order on backward distances. -/
def dLT : Option Nat → Option Nat → Prop
  | none, _ => False
  | some _, none => True
  | some a, some b => a < b

/-- The spec's victim-selection rule, stated of the pre-eviction state:
the frame is evictable, every evictable frame has a backward K-distance
no larger than its own (measured at the incremented clock), and any
evictable frame with an equal distance has a first access no earlier
than its own. -/
def IsVictim (s : ReplacerState) (f : Nat) : Prop :=
  f ∈ s.is_evictable ∧
  ∀ g ∈ s.is_evictable,
    dLE (bdist (s.current_timestamp + 1) s g) (bdist (s.current_timestamp + 1) s f) ∧
    (bdist (s.current_timestamp + 1) s g = bdist (s.current_timestamp + 1) s f →
      faOf s f ≤ faOf s g)

/-! ### Replacer state invariant -/

/-- Shape of a tracked frame's timestamp vector: the recorded timestamps
(at most `k`, at least one, all at most `cur` and strictly below the
sentinel) followed by `INT_MAX` padding. -/
def VecInv (cur k : Nat) (vec : List Nat) : Prop :=
  ∃ ts : List Nat,
    vec = ts ++ List.replicate (k - ts.length) INT_MAX ∧
    1 ≤ ts.length ∧ ts.length ≤ k ∧
    ∀ t ∈ ts, t ≤ cur ∧ t < INT_MAX

/-- Invariant tying the replacer's containers together: tracked frames
are exactly the keys of `hast_`, the evictable set only holds tracked
frames, every tracked frame has a well-formed timestamp vector and a
recorded first access no later than the clock, and `lru_` lists the
frames in strictly increasing order of first access. -/
structure RInv (s : ReplacerState) : Prop where
  nodup : s.lru.Nodup
  ev_sub : ∀ f ∈ s.is_evictable, f ∈ s.lru
  hast_keys : ∀ f, (lookupA s.hast f).isSome = true ↔ f ∈ s.lru
  vec_inv : ∀ f ∈ s.lru, VecInv s.current_timestamp s.k (vecOf s f)
  fa_le : ∀ f ∈ s.lru, faOf s f ≤ s.current_timestamp
  sorted : s.lru.Pairwise (fun a b => faOf s a < faOf s b)

/-! ### Association-list and list lemmas -/

theorem lookupA_insertA_self {α β : Type} [DecidableEq α] (l : List (α × β)) (a : α) (b : β) :
    lookupA (insertA l a b) a = some b := by
  induction l with
  | nil => simp [insertA, lookupA]
  | cons p rest ih =>
    by_cases h : p.1 = a <;> simp [insertA, lookupA, h, ih]

theorem lookupA_insertA_ne {α β : Type} [DecidableEq α] (l : List (α × β)) (a c : α) (b : β)
    (h : c ≠ a) : lookupA (insertA l a b) c = lookupA l c := by
  have ha : a ≠ c := fun h' => h h'.symm
  induction l with
  | nil => simp [insertA, lookupA, ha]
  | cons p rest ih =>
    by_cases hp : p.1 = a
    · subst hp
      simp [insertA, lookupA, ha]
    · simp [insertA, lookupA, hp, ih]

theorem lookupA_eraseA_self {α β : Type} [DecidableEq α] (l : List (α × β)) (a : α) :
    lookupA (eraseA l a) a = none := by
  induction l with
  | nil => simp [eraseA, lookupA]
  | cons p rest ih =>
    by_cases h : p.1 = a <;> simp [eraseA, lookupA, List.filter_cons, h] at ih ⊢ <;>
      simpa [eraseA] using ih

theorem lookupA_eraseA_ne {α β : Type} [DecidableEq α] (l : List (α × β)) (a c : α) (h : c ≠ a) :
    lookupA (eraseA l a) c = lookupA l c := by
  induction l with
  | nil => simp [eraseA, lookupA]
  | cons p rest ih =>
    by_cases hp : p.1 = a
    · have hac : a ≠ c := fun h' => h h'.symm
      simp [eraseA, lookupA, List.filter_cons, hp, hac] at ih ⊢
      simpa [eraseA] using ih
    · simp [eraseA, lookupA, List.filter_cons, hp] at ih ⊢
      by_cases hc : p.1 = c <;> simp [hc, lookupA] <;> simpa [eraseA] using ih

theorem getD_replicate_lt {α : Type} (n i : Nat) (a d : α) (h : i < n) :
    (List.replicate n a).getD i d = a := by
  induction n generalizing i with
  | zero => omega
  | succ m ih =>
    cases i with
    | zero => simp [List.replicate]
    | succ j => simpa [List.replicate] using ih j (by omega)

theorem getD_append_right_list {α : Type} (l l' : List α) (i : Nat) (d : α) (h : l.length ≤ i) :
    (l ++ l').getD i d = l'.getD (i - l.length) d := by
  induction l generalizing i with
  | nil => simp
  | cons x rest ih =>
    cases i with
    | zero => simp at h
    | succ j => simpa using ih j (by simpa using h)

theorem getD_mem_of_lt {α : Type} (l : List α) (i : Nat) (d : α) (h : i < l.length) :
    l.getD i d ∈ l := by
  induction l generalizing i with
  | nil => simp at h
  | cons x rest ih =>
    cases i with
    | zero => simp
    | succ j => simp only [List.getD_cons_succ]; exact List.mem_cons_of_mem _ (ih j (by simpa using h))

/-! ### Invariant preservation -/

theorem vecInv_mono (cur cur' k : Nat) (v : List Nat) (h : cur ≤ cur')
    (hv : VecInv cur k v) : VecInv cur' k v := by
  obtain ⟨ts, h1, h2, h3, h4⟩ := hv
  exact ⟨ts, h1, h2, h3, fun t ht => ⟨le_trans (h4 t ht).1 h, (h4 t ht).2⟩⟩

theorem vecOf_removeFrame_ne (s : ReplacerState) (f g : Nat) (h : g ≠ f) :
    vecOf (removeFrame s f) g = vecOf s g := by
  simp [vecOf, removeFrame, lookupA_eraseA_ne _ _ _ h]

theorem faOf_removeFrame_ne (s : ReplacerState) (f g : Nat) (h : g ≠ f) :
    faOf (removeFrame s f) g = faOf s g := by
  simp [faOf, removeFrame, lookupA_eraseA_ne _ _ _ h]

theorem removeFrame_rinv (s : ReplacerState) (f : Nat) (h : RInv s) :
    RInv (removeFrame s f) := by
  constructor
  · exact h.nodup.filter _
  · intro g hg
    simp only [removeFrame, List.mem_filter] at hg ⊢
    exact ⟨h.ev_sub g hg.1, hg.2⟩
  · intro g
    by_cases hgf : g = f
    · subst hgf
      simp [removeFrame, lookupA_eraseA_self]
    · simp only [removeFrame, List.mem_filter]
      rw [lookupA_eraseA_ne _ _ _ hgf]
      simp [h.hast_keys g, hgf]
  · intro g hg
    simp only [removeFrame, List.mem_filter] at hg
    have hgf : g ≠ f := by simpa using hg.2
    rw [vecOf_removeFrame_ne _ _ _ hgf]
    simpa [removeFrame] using h.vec_inv g hg.1
  · intro g hg
    simp only [removeFrame, List.mem_filter] at hg
    have hgf : g ≠ f := by simpa using hg.2
    rw [faOf_removeFrame_ne _ _ _ hgf]
    simpa [removeFrame] using h.fa_le g hg.1
  · have hsub : (s.lru.filter (· ≠ f)).Pairwise (fun a b => faOf s a < faOf s b) :=
      h.sorted.sublist (List.filter_sublist _)
    show (s.lru.filter (· ≠ f)).Pairwise
      (fun a b => faOf (removeFrame s f) a < faOf (removeFrame s f) b)
    refine List.Pairwise.imp_of_mem ?_ hsub
    intro a b ha hb hab
    rw [List.mem_filter] at ha hb
    have haf : a ≠ f := by simpa using ha.2
    have hbf : b ≠ f := by simpa using hb.2
    rw [faOf_removeFrame_ne _ _ _ haf, faOf_removeFrame_ne _ _ _ hbf]
    exact hab

theorem rinv_bump (s : ReplacerState) (c : Nat) (hc : s.current_timestamp ≤ c)
    (h : RInv s) : RInv { s with current_timestamp := c } := by
  constructor
  · exact h.nodup
  · exact h.ev_sub
  · exact h.hast_keys
  · intro g hg
    exact vecInv_mono _ _ _ _ hc (h.vec_inv g hg)
  · intro g hg
    exact le_trans (h.fa_le g hg) hc
  · exact h.sorted

theorem setEvictable_rinv (s : ReplacerState) (f : Nat) (b : Bool) (h : RInv s) :
    RInv (setEvictable s f b) := by
  have h1 : RInv (bumpClock s) := rinv_bump s _ (Nat.le_succ _) h
  unfold setEvictable
  by_cases htr : tracked (bumpClock s) f
  · simp only [htr, if_true]
    cases b with
    | true =>
      simp only [if_true]
      by_cases hmem : f ∈ (bumpClock s).is_evictable
      · simp only [hmem, if_true]
        exact h1
      · simp only [hmem, if_false]
        constructor
        · exact h1.nodup
        · intro g hg
          simp only [List.mem_append, List.mem_singleton] at hg
          rcases hg with hg | hg
          · exact h1.ev_sub g hg
          · rw [hg]
            simp only [tracked] at htr
            exact (h.hast_keys f).mp (by simpa using htr)
        · exact h1.hast_keys
        · exact h1.vec_inv
        · exact h1.fa_le
        · exact h1.sorted
    | false =>
      simp only [Bool.false_eq_true, if_false]
      constructor
      · exact h1.nodup
      · intro g hg
        simp only [List.mem_filter] at hg
        exact h1.ev_sub g hg.1
      · exact h1.hast_keys
      · exact h1.vec_inv
      · exact h1.fa_le
      · exact h1.sorted
  · simpa [htr] using h1

theorem overflowLoop_const (s : ReplacerState) (l : List Nat) :
    ∀ (mmax : Nat) (cand : Option Nat),
      (overflowLoop s l mmax cand).1.replacer_size = s.replacer_size ∧
      (overflowLoop s l mmax cand).1.k = s.k ∧
      (overflowLoop s l mmax cand).1.current_timestamp = s.current_timestamp := by
  induction l generalizing s with
  | nil => intro mmax cand; simp [overflowLoop]
  | cons id rest ih =>
    intro mmax cand
    simp only [overflowLoop]
    by_cases hev : id ∈ s.is_evictable
    · by_cases hkth : kthOf s id = INT_MAX
      · simpa [hev, hkth, removeFrame] using ih (removeFrame s id) mmax cand
      · by_cases htmp : s.current_timestamp - kthOf s id > mmax
        · simpa [hev, hkth, htmp] using ih s _ _
        · simpa [hev, hkth, htmp] using ih s _ _
    · simpa [hev] using ih s mmax cand

theorem overflowLoop_frames (s : ReplacerState) (l : List Nat) :
    ∀ (mmax : Nat) (cand : Option Nat) (g : Nat),
      g ∈ (overflowLoop s l mmax cand).1.lru →
      g ∈ s.lru ∧ faOf (overflowLoop s l mmax cand).1 g = faOf s g ∧
        vecOf (overflowLoop s l mmax cand).1 g = vecOf s g := by
  induction l generalizing s with
  | nil => intro mmax cand g hg; simpa [overflowLoop] using hg
  | cons id rest ih =>
    intro mmax cand g
    simp only [overflowLoop]
    by_cases hev : id ∈ s.is_evictable
    · by_cases hkth : kthOf s id = INT_MAX
      · simp only [hev, hkth, if_true]
        intro hg
        obtain ⟨hg1, hg2, hg3⟩ := ih (removeFrame s id) mmax cand g hg
        have hgid : g ≠ id := by
          have := hg1
          simp only [removeFrame, List.mem_filter] at this
          simpa using this.2
        refine ⟨?_, ?_, ?_⟩
        · have := hg1
          simp only [removeFrame, List.mem_filter] at this
          exact this.1
        · rw [hg2, faOf_removeFrame_ne _ _ _ hgid]
        · rw [hg3, vecOf_removeFrame_ne _ _ _ hgid]
      · by_cases htmp : s.current_timestamp - kthOf s id > mmax
        · simp only [hev, hkth, htmp, if_true, if_false]
          exact ih s _ _ g
        · simp only [hev, hkth, htmp, if_true, if_false]
          exact ih s _ _ g
    · simp only [hev, if_false]
      exact ih s mmax cand g

theorem overflowLoop_rinv (s : ReplacerState) (l : List Nat) :
    ∀ (mmax : Nat) (cand : Option Nat), RInv s → RInv (overflowLoop s l mmax cand).1 := by
  induction l generalizing s with
  | nil => intro mmax cand h; simpa [overflowLoop] using h
  | cons id rest ih =>
    intro mmax cand h
    simp only [overflowLoop]
    by_cases hev : id ∈ s.is_evictable
    · by_cases hkth : kthOf s id = INT_MAX
      · simp only [hev, hkth, if_true]
        exact ih (removeFrame s id) _ _ (removeFrame_rinv s id h)
      · by_cases htmp : s.current_timestamp - kthOf s id > mmax
        · simp only [hev, hkth, htmp, if_true, if_false]
          exact ih s _ _ h
        · simp only [hev, hkth, htmp, if_true, if_false]
          exact ih s _ _ h
    · simp only [hev, if_false]
      exact ih s mmax cand h

theorem vecOf_insertFresh_self (s2 : ReplacerState) (fid : Nat) :
    vecOf (insertFreshFrame s2 fid) fid
      = s2.current_timestamp :: List.replicate (s2.k - 1) INT_MAX := by
  simp [vecOf, insertFreshFrame, lookupA_insertA_self]

theorem vecOf_insertFresh_ne (s2 : ReplacerState) (fid g : Nat) (h : g ≠ fid) :
    vecOf (insertFreshFrame s2 fid) g = vecOf s2 g := by
  simp [vecOf, insertFreshFrame, lookupA_insertA_ne _ _ _ _ h]

theorem faOf_insertFresh_self (s2 : ReplacerState) (fid : Nat) :
    faOf (insertFreshFrame s2 fid) fid = s2.current_timestamp := by
  simp [faOf, insertFreshFrame, lookupA_insertA_self]

theorem faOf_insertFresh_ne (s2 : ReplacerState) (fid g : Nat) (h : g ≠ fid) :
    faOf (insertFreshFrame s2 fid) g = faOf s2 g := by
  simp [faOf, insertFreshFrame, lookupA_insertA_ne _ _ _ _ h]

/-- Installing a fresh frame at the back of `lru_` preserves the
invariant, provided every surviving frame's first access predates the
new timestamp. -/
theorem insertFresh_rinv (s2 : ReplacerState) (fid : Nat)
    (h2 : RInv s2) (hk : 1 ≤ s2.k) (hcur : s2.current_timestamp < INT_MAX)
    (hfa : ∀ g ∈ s2.lru, faOf s2 g < s2.current_timestamp)
    (hfresh : fid ∉ s2.lru) :
    RInv (insertFreshFrame s2 fid) := by
  constructor
  · show (s2.lru ++ [fid]).Nodup
    rw [← List.concat_eq_append]
    exact List.Nodup.concat hfresh h2.nodup
  · intro g hg
    exact List.mem_append_left _ (h2.ev_sub g hg)
  · intro g
    by_cases hgf : g = fid
    · subst hgf
      simp [insertFreshFrame, lookupA_insertA_self]
    · show (lookupA (insertA s2.hast fid _) g).isSome = true ↔ g ∈ s2.lru ++ [fid]
      rw [lookupA_insertA_ne _ _ _ _ hgf]
      simp only [List.mem_append, List.mem_singleton, hgf, or_false]
      exact h2.hast_keys g
  · intro g hg
    by_cases hgf : g = fid
    · subst hgf
      rw [vecOf_insertFresh_self]
      refine ⟨[s2.current_timestamp], by simp [insertFreshFrame], by simp,
        by simpa [insertFreshFrame] using hk, ?_⟩
      intro t ht
      rw [List.mem_singleton] at ht
      subst ht
      exact ⟨le_refl _, hcur⟩
    · have hg2 : g ∈ s2.lru := by
        rcases List.mem_append.mp hg with h' | h'
        · exact h'
        · exact absurd (List.mem_singleton.mp h') hgf
      rw [vecOf_insertFresh_ne _ _ _ hgf]
      exact h2.vec_inv g hg2
  · intro g hg
    by_cases hgf : g = fid
    · subst hgf
      rw [faOf_insertFresh_self]
      simp [insertFreshFrame]
    · have hg2 : g ∈ s2.lru := by
        rcases List.mem_append.mp hg with h' | h'
        · exact h'
        · exact absurd (List.mem_singleton.mp h') hgf
      rw [faOf_insertFresh_ne _ _ _ hgf]
      exact h2.fa_le g hg2
  · show (s2.lru ++ [fid]).Pairwise
      (fun a b => faOf (insertFreshFrame s2 fid) a < faOf (insertFreshFrame s2 fid) b)
    rw [List.pairwise_append]
    refine ⟨?_, by simp, ?_⟩
    · refine List.Pairwise.imp_of_mem ?_ h2.sorted
      intro a b ha hb hab
      have haf : a ≠ fid := fun h' => hfresh (h' ▸ ha)
      have hbf : b ≠ fid := fun h' => hfresh (h' ▸ hb)
      rw [faOf_insertFresh_ne _ _ _ haf, faOf_insertFresh_ne _ _ _ hbf]
      exact hab
    · intro a ha b hb
      rw [List.mem_singleton] at hb
      have haf : a ≠ fid := fun h' => hfresh (h' ▸ ha)
      rw [hb, faOf_insertFresh_ne _ _ _ haf, faOf_insertFresh_self]
      exact hfa a ha

/-- Shifting the timestamp vector (`vec[i] = vec[i-1]` downwards, then
`vec[0] = current`) preserves the vector invariant at the next clock. -/
theorem vecShift_vecinv (cur k : Nat) (vec : List Nat) (hk : 1 ≤ k)
    (hcur : cur + 1 < INT_MAX) (h : VecInv cur k vec) :
    VecInv (cur + 1) k ((cur + 1) :: vec.take (k - 1)) := by
  obtain ⟨ts, hveq, h1, h2, h3⟩ := h
  unfold VecInv
  by_cases hc : ts.length < k
  · have hc1 : ts.length ≤ k - 1 := by omega
    have htake : vec.take (k - 1) = ts ++ List.replicate (k - 1 - ts.length) INT_MAX := by
      rw [hveq, List.take_append_eq_append_take, List.take_of_length_le hc1,
        List.take_replicate]
      have hmin : min (k - 1 - ts.length) (k - ts.length) = k - 1 - ts.length :=
        Nat.min_eq_left (by omega)
      rw [hmin]
    refine ⟨(cur + 1) :: ts, ?_, ?_, ?_, ?_⟩
    · rw [htake]
      simp only [List.cons_append, List.length_cons]
      have hn : k - 1 - ts.length = k - (ts.length + 1) := by omega
      rw [hn]
    · simp
    · simp only [List.length_cons]
      omega
    · intro t ht
      rcases List.mem_cons.mp ht with ht | ht
      · subst ht
        exact ⟨le_refl _, hcur⟩
      · exact ⟨le_trans (h3 t ht).1 (Nat.le_succ _), (h3 t ht).2⟩
  · have hck : ts.length = k := by omega
    have hveq2 : vec = ts := by
      rw [hveq, hck]
      simp
    refine ⟨(cur + 1) :: ts.take (k - 1), ?_, ?_, ?_, ?_⟩
    · rw [hveq2]
      simp only [List.length_cons, List.length_take, hck]
      have hmin : min (k - 1) k = k - 1 := by omega
      rw [hmin]
      have : k - (k - 1 + 1) = 0 := by omega
      rw [this]
      simp
    · simp
    · simp only [List.length_cons, List.length_take, hck]
      omega
    · intro t ht
      rcases List.mem_cons.mp ht with ht | ht
      · subst ht
        exact ⟨le_refl _, hcur⟩
      · have htm : t ∈ ts := List.take_subset _ _ ht
        exact ⟨le_trans (h3 t htm).1 (Nat.le_succ _), (h3 t htm).2⟩

theorem vecOf_recordAccessTracked_self (s1 : ReplacerState) (fid : Nat) :
    vecOf (recordAccessTracked s1 fid) fid
      = s1.current_timestamp :: (vecOf s1 fid).take (s1.k - 1) := by
  simp [vecOf, recordAccessTracked, lookupA_insertA_self]

theorem vecOf_recordAccessTracked_ne (s1 : ReplacerState) (fid g : Nat) (h : g ≠ fid) :
    vecOf (recordAccessTracked s1 fid) g = vecOf s1 g := by
  simp [vecOf, recordAccessTracked, lookupA_insertA_ne _ _ _ _ h]

theorem recordAccess_rinv (s : ReplacerState) (fid : Nat) (h : RInv s)
    (hk : 1 ≤ s.k) (hcur : s.current_timestamp + 1 < INT_MAX) :
    RInv (recordAccess s fid) := by
  have h1 : RInv (bumpClock s) := rinv_bump s _ (Nat.le_succ _) h
  unfold recordAccess
  by_cases htr : tracked (bumpClock s) fid
  · simp only [htr, if_true]
    have hmem : fid ∈ (bumpClock s).lru := by
      simp only [tracked] at htr
      exact (h1.hast_keys fid).mp (by simpa using htr)
    constructor
    · exact h1.nodup
    · exact h1.ev_sub
    · intro g
      by_cases hgf : g = fid
      · rw [hgf]
        simp only [recordAccessTracked]
        rw [show (lookupA (insertA (bumpClock s).hast fid
          ((bumpClock s).current_timestamp :: (vecOf (bumpClock s) fid).take
            ((bumpClock s).k - 1))) fid) = some ((bumpClock s).current_timestamp ::
            (vecOf (bumpClock s) fid).take ((bumpClock s).k - 1)) from
          lookupA_insertA_self _ _ _]
        simpa using hmem
      · show (lookupA (insertA (bumpClock s).hast fid _) g).isSome = true ↔ _
        rw [lookupA_insertA_ne _ _ _ _ hgf]
        exact h1.hast_keys g
    · intro g hg
      by_cases hgf : g = fid
      · rw [hgf]
        rw [vecOf_recordAccessTracked_self]
        have hv : VecInv s.current_timestamp s.k (vecOf s fid) := h.vec_inv fid hmem
        have : VecInv (s.current_timestamp + 1) s.k
            ((s.current_timestamp + 1) :: (vecOf s fid).take (s.k - 1)) :=
          vecShift_vecinv _ _ _ hk hcur hv
        simpa [bumpClock, recordAccessTracked, vecOf] using this
      · rw [vecOf_recordAccessTracked_ne _ _ _ hgf]
        exact h1.vec_inv g hg
    · intro g hg
      exact h1.fa_le g hg
    · exact h1.sorted
  · simp only [htr, if_false]
    have hfid_notin : fid ∉ (bumpClock s).lru := by
      intro hmem
      have := (h1.hast_keys fid).mpr hmem
      simp only [tracked] at htr
      exact htr (by simpa using this)
    set s2 := recordAccessScan (bumpClock s) with hs2
    have h2 : RInv s2 := by
      rw [hs2]
      unfold recordAccessScan
      by_cases hfull : (bumpClock s).lru.length = (bumpClock s).replacer_size
      · simp only [hfull, if_true]
        have hov : RInv (overflowLoop (bumpClock s) (bumpClock s).lru 0 none).1 :=
          overflowLoop_rinv _ _ _ _ h1
        rcases hsc : overflowLoop (bumpClock s) (bumpClock s).lru 0 none with ⟨s', c⟩
        cases c with
        | some pop =>
          have : RInv s' := by rw [hsc] at hov; exact hov
          exact removeFrame_rinv s' pop this
        | none =>
          rw [hsc] at hov
          exact hov
      · simpa [hfull] using h1
    have hframes : ∀ g ∈ s2.lru, g ∈ (bumpClock s).lru ∧ faOf s2 g = faOf (bumpClock s) g := by
      rw [hs2]
      unfold recordAccessScan
      by_cases hfull : (bumpClock s).lru.length = (bumpClock s).replacer_size
      · simp only [hfull, if_true]
        rcases hsc : overflowLoop (bumpClock s) (bumpClock s).lru 0 none with ⟨s', c⟩
        have hfr := overflowLoop_frames (bumpClock s) (bumpClock s).lru 0 none
        rw [hsc] at hfr
        cases c with
        | some pop =>
          intro g hg
          simp only [removeFrame, List.mem_filter] at hg
          have hgpop : g ≠ pop := by simpa using hg.2
          obtain ⟨hmem', hfa', _⟩ := hfr g hg.1
          exact ⟨hmem', by rw [faOf_removeFrame_ne _ _ _ hgpop, hfa']⟩
        | none =>
          intro g hg
          obtain ⟨hmem', hfa', _⟩ := hfr g hg
          exact ⟨hmem', hfa'⟩
      · simp only [hfull, if_false]
        intro g hg
        exact ⟨hg, trivial⟩
    have hcur2 : s2.current_timestamp = s.current_timestamp + 1 := by
      rw [hs2]
      unfold recordAccessScan
      by_cases hfull : (bumpClock s).lru.length = (bumpClock s).replacer_size
      · simp only [hfull, if_true]
        rcases hsc : overflowLoop (bumpClock s) (bumpClock s).lru 0 none with ⟨s', c⟩
        have hcn := overflowLoop_const (bumpClock s) (bumpClock s).lru 0 none
        rw [hsc] at hcn
        cases c with
        | some pop => simpa [removeFrame, bumpClock] using hcn.2.2
        | none => simpa [bumpClock] using hcn.2.2
      · rw [if_neg hfull]
        simp [bumpClock]
    have hk2 : s2.k = s.k := by
      rw [hs2]
      unfold recordAccessScan
      by_cases hfull : (bumpClock s).lru.length = (bumpClock s).replacer_size
      · simp only [hfull, if_true]
        rcases hsc : overflowLoop (bumpClock s) (bumpClock s).lru 0 none with ⟨s', c⟩
        have hcn := overflowLoop_const (bumpClock s) (bumpClock s).lru 0 none
        rw [hsc] at hcn
        cases c with
        | some pop => simpa [removeFrame, bumpClock] using hcn.2.1
        | none => simpa [bumpClock] using hcn.2.1
      · rw [if_neg hfull]
        simp [bumpClock]
    refine insertFresh_rinv s2 fid h2 (by rw [hk2]; exact hk) (by rw [hcur2]; exact hcur) ?_ ?_
    · intro g hg
      obtain ⟨hmem', hfa'⟩ := hframes g hg
      have : faOf (bumpClock s) g ≤ s.current_timestamp := h.fa_le g (by simpa [bumpClock] using hmem')
      rw [hfa', hcur2]
      omega
    · intro hg
      exact hfid_notin (hframes fid hg).1

/-! ### Clock and constant-field lemmas for operation sequences -/

theorem recordAccessScan_fields (s1 : ReplacerState) :
    (recordAccessScan s1).current_timestamp = s1.current_timestamp ∧
    (recordAccessScan s1).k = s1.k ∧
    (recordAccessScan s1).replacer_size = s1.replacer_size := by
  unfold recordAccessScan
  by_cases hfull : s1.lru.length = s1.replacer_size
  · simp only [hfull, if_true]
    rcases hsc : overflowLoop s1 s1.lru 0 none with ⟨s', c⟩
    have hcn := overflowLoop_const s1 s1.lru 0 none
    rw [hsc] at hcn
    cases c with
    | some pop =>
      exact ⟨by simpa [removeFrame] using hcn.2.2, by simpa [removeFrame] using hcn.2.1,
        by simpa [removeFrame] using hcn.1⟩
    | none => exact ⟨hcn.2.2, hcn.2.1, hcn.1⟩
  · simp [hfull]

theorem applyReplOp_fields (s : ReplacerState) (op : ReplOp) :
    (applyReplOp s op).current_timestamp = s.current_timestamp + 1 ∧
    (applyReplOp s op).k = s.k ∧
    (applyReplOp s op).replacer_size = s.replacer_size := by
  cases op with
  | ra f =>
    show (recordAccess s f).current_timestamp = _ ∧
      (recordAccess s f).k = _ ∧ (recordAccess s f).replacer_size = _
    unfold recordAccess
    by_cases htr : tracked (bumpClock s) f
    · simp only [htr, if_true]
      simp [recordAccessTracked, bumpClock]
    · simp only [htr, if_false]
      have hsf := recordAccessScan_fields (bumpClock s)
      refine ⟨?_, ?_, ?_⟩
      · show (recordAccessScan (bumpClock s)).current_timestamp = _
        rw [hsf.1]
        simp [bumpClock]
      · show (recordAccessScan (bumpClock s)).k = _
        rw [hsf.2.1]
        simp [bumpClock]
      · show (recordAccessScan (bumpClock s)).replacer_size = _
        rw [hsf.2.2]
        simp [bumpClock]
  | se f b =>
    show (setEvictable s f b).current_timestamp = _ ∧
      (setEvictable s f b).k = _ ∧ (setEvictable s f b).replacer_size = _
    unfold setEvictable
    by_cases htr : tracked (bumpClock s) f
    · simp only [htr, if_true]
      cases b <;> simp [bumpClock]
    · simp only [htr, if_false]
      simp [bumpClock]

theorem applyReplOp_rinv (s : ReplacerState) (op : ReplOp) (h : RInv s)
    (hk : 1 ≤ s.k) (hcur : s.current_timestamp + 1 < INT_MAX) :
    RInv (applyReplOp s op) := by
  cases op with
  | ra f => exact recordAccess_rinv s f h hk hcur
  | se f b => exact setEvictable_rinv s f b h

theorem rinv_init (num_frames k : Nat) : RInv (ReplacerState.init num_frames k) := by
  constructor <;> simp [ReplacerState.init, lookupA]

theorem foldl_rinv (ops : List ReplOp) :
    ∀ s : ReplacerState, RInv s → 1 ≤ s.k →
      s.current_timestamp + ops.length < INT_MAX →
      RInv (ops.foldl applyReplOp s) ∧
      (ops.foldl applyReplOp s).current_timestamp = s.current_timestamp + ops.length ∧
      (ops.foldl applyReplOp s).k = s.k ∧
      (ops.foldl applyReplOp s).replacer_size = s.replacer_size := by
  induction ops with
  | nil => intro s h hk hlen; exact ⟨h, by simp, rfl, rfl⟩
  | cons op rest ih =>
    intro s h hk hlen
    simp only [List.length_cons] at hlen
    have hstep := applyReplOp_fields s op
    have h' : RInv (applyReplOp s op) := applyReplOp_rinv s op h hk (by omega)
    have hk' : 1 ≤ (applyReplOp s op).k := by rw [hstep.2.1]; exact hk
    have hlen' : (applyReplOp s op).current_timestamp + rest.length < INT_MAX := by
      rw [hstep.1]; omega
    obtain ⟨h1, h2, h3, h4⟩ := ih (applyReplOp s op) h' hk' hlen'
    refine ⟨by simpa using h1, ?_, ?_, ?_⟩
    · simp only [List.foldl_cons]
      rw [h2, hstep.1]
      simp only [List.length_cons]
      omega
    · simp only [List.foldl_cons]
      rw [h3, hstep.2.1]
    · simp only [List.foldl_cons]
      rw [h4, hstep.2.2]

theorem runRepl_rinv (num_frames k : Nat) (ops : List ReplOp) (hk : 1 ≤ k)
    (hlen : ops.length < INT_MAX) :
    RInv (runRepl num_frames k ops) ∧
    (runRepl num_frames k ops).current_timestamp = ops.length ∧
    (runRepl num_frames k ops).k = k ∧
    (runRepl num_frames k ops).replacer_size = num_frames := by
  have := foldl_rinv ops (ReplacerState.init num_frames k) (rinv_init _ _)
    (by simpa [ReplacerState.init] using hk) (by simpa [ReplacerState.init] using hlen)
  simpa [runRepl, ReplacerState.init] using this

/-! ### Analysis of the eviction scan -/

/-- Backward K-distance measured inside the scan, where the state's
clock has already been incremented. -/
def bdist1 (s1 : ReplacerState) (g : Nat) : Option Nat :=
  if kthOf s1 g = INT_MAX then none else some (s1.current_timestamp - kthOf s1 g)

theorem dLE_some_mono (a b : Nat) (d : Option Nat) (hab : a ≤ b)
    (h : dLE (some b) d) : dLE (some a) d := by
  cases d with
  | none => trivial
  | some v => exact le_trans hab h

theorem dLE_any_none (a : Option Nat) : dLE a none := by
  cases a <;> trivial

theorem evictLoop_none_spec (s1 : ReplacerState) (l : List Nat) :
    ∀ (mmax : Nat) (cand : Option Nat),
      evictLoop s1 l mmax cand = none →
      cand = none ∧ ∀ g ∈ l, g ∈ s1.is_evictable →
        kthOf s1 g ≠ INT_MAX ∧ s1.current_timestamp - kthOf s1 g ≤ mmax := by
  induction l with
  | nil =>
    intro mmax cand hres
    exact ⟨hres, by simp⟩
  | cons id rest ih =>
    intro mmax cand hres
    simp only [evictLoop] at hres
    by_cases hev : id ∈ s1.is_evictable
    · rw [if_pos hev] at hres
      by_cases hks : kthOf s1 id = INT_MAX
      · rw [if_pos hks] at hres
        exact absurd hres (by simp)
      · rw [if_neg hks] at hres
        by_cases htmp : s1.current_timestamp - kthOf s1 id > mmax
        · rw [if_pos htmp] at hres
          obtain ⟨hc, _⟩ := ih _ _ hres
          exact absurd hc (by simp)
        · rw [if_neg htmp] at hres
          obtain ⟨hc, htail⟩ := ih _ _ hres
          refine ⟨hc, ?_⟩
          intro g hg hgev
          rcases List.mem_cons.mp hg with hg | hg
          · rw [hg]
            exact ⟨hks, by omega⟩
          · exact htail g hg hgev
    · rw [if_neg hev] at hres
      obtain ⟨hc, htail⟩ := ih _ _ hres
      refine ⟨hc, ?_⟩
      intro g hg hgev
      rcases List.mem_cons.mp hg with hg | hg
      · rw [hg] at hgev
        exact absurd hgev hev
      · exact htail g hg hgev

theorem evictLoop_some_spec (s1 : ReplacerState) (l : List Nat) :
    ∀ (mmax : Nat) (cand : Option Nat) (f : Nat),
      l.Pairwise (fun a b => faOf s1 a < faOf s1 b) →
      (∀ g ∈ l, g ∈ s1.is_evictable →
        kthOf s1 g = INT_MAX ∨ kthOf s1 g < s1.current_timestamp) →
      (cand = none → mmax = 0) →
      (∀ c, cand = some c → c ∈ s1.is_evictable ∧ kthOf s1 c ≠ INT_MAX ∧
        mmax = s1.current_timestamp - kthOf s1 c ∧ 0 < mmax ∧
        ∀ g ∈ l, faOf s1 c < faOf s1 g) →
      evictLoop s1 l mmax cand = some f →
      ((f ∈ s1.is_evictable ∧ f ∈ l) ∨ cand = some f) ∧
      dLE (some mmax) (bdist1 s1 f) ∧
      (∀ g ∈ l, g ∈ s1.is_evictable →
        dLE (bdist1 s1 g) (bdist1 s1 f) ∧
        (bdist1 s1 g = bdist1 s1 f → faOf s1 f ≤ faOf s1 g)) ∧
      (∀ c, cand = some c → f ≠ c → dLT (some mmax) (bdist1 s1 f)) := by
  induction l with
  | nil =>
    intro mmax cand f _ _ _ hcand hres
    simp only [evictLoop] at hres
    obtain ⟨hcev, hckth, hcm, hcpos, _⟩ := hcand f hres
    refine ⟨Or.inr hres, ?_, by simp, ?_⟩
    · rw [bdist1, if_neg hckth, hcm]
      exact le_refl _
    · intro c hc hfc
      rw [hres] at hc
      exact absurd (Option.some.inj hc) hfc
  | cons id rest ih =>
    intro mmax cand f hpair hpos hcand0 hcand hres
    have hpair_rest : rest.Pairwise (fun a b => faOf s1 a < faOf s1 b) :=
      (List.pairwise_cons.mp hpair).2
    have hpair_head : ∀ g ∈ rest, faOf s1 id < faOf s1 g :=
      (List.pairwise_cons.mp hpair).1
    have hpos_rest : ∀ g ∈ rest, g ∈ s1.is_evictable →
        kthOf s1 g = INT_MAX ∨ kthOf s1 g < s1.current_timestamp :=
      fun g hg => hpos g (List.mem_cons_of_mem _ hg)
    simp only [evictLoop] at hres
    by_cases hev : id ∈ s1.is_evictable
    · rw [if_pos hev] at hres
      by_cases hks : kthOf s1 id = INT_MAX
      · rw [if_pos hks] at hres
        have hf : f = id := (Option.some.inj hres).symm
        subst hf
        have hbf : bdist1 s1 f = none := by
          rw [bdist1, if_pos hks]
        refine ⟨Or.inl ⟨hev, List.mem_cons_self _ _⟩, ?_, ?_, ?_⟩
        · rw [hbf]
          trivial
        · intro g hg hgev
          refine ⟨by rw [hbf]; exact dLE_any_none _, ?_⟩
          intro _
          rcases List.mem_cons.mp hg with hg | hg
          · rw [hg]
          · exact le_of_lt (hpair_head g hg)
        · intro c hc _
          rw [hbf]
          trivial
      · rw [if_neg hks] at hres
        have hkpos : kthOf s1 id < s1.current_timestamp := by
          rcases hpos id (List.mem_cons_self _ _) hev with h' | h'
          · exact absurd h' hks
          · exact h'
        by_cases htmp : s1.current_timestamp - kthOf s1 id > mmax
        · rw [if_pos htmp] at hres
          have hcand0' : (some id : Option Nat) = none → s1.current_timestamp - kthOf s1 id = 0 := by
            intro h'
            cases h'
          have hcand' : ∀ c, (some id : Option Nat) = some c → c ∈ s1.is_evictable ∧
              kthOf s1 c ≠ INT_MAX ∧
              s1.current_timestamp - kthOf s1 id = s1.current_timestamp - kthOf s1 c ∧
              0 < s1.current_timestamp - kthOf s1 id ∧
              ∀ g ∈ rest, faOf s1 c < faOf s1 g := by
            intro c hc
            have hcid : c = id := (Option.some.inj hc).symm
            subst hcid
            exact ⟨hev, hks, rfl, by omega, hpair_head⟩
          obtain ⟨hmem, hle, hall, hne⟩ :=
            ih _ _ f hpair_rest hpos_rest hcand0' hcand' hres
          have hbid : bdist1 s1 id = some (s1.current_timestamp - kthOf s1 id) := by
            rw [bdist1, if_neg hks]
          refine ⟨?_, ?_, ?_, ?_⟩
          · rcases hmem with ⟨hfe, hfr⟩ | hfc
            · exact Or.inl ⟨hfe, List.mem_cons_of_mem _ hfr⟩
            · have : f = id := (Option.some.inj hfc).symm
              rw [this]
              exact Or.inl ⟨hev, List.mem_cons_self _ _⟩
          · exact dLE_some_mono _ _ _ (by omega) hle
          · intro g hg hgev
            rcases List.mem_cons.mp hg with hg | hg
            · subst hg
              refine ⟨by rw [hbid]; exact hle, ?_⟩
              intro heq
              by_cases hfg : f = g
              · rw [hfg]
              · have := hne g rfl hfg
                rw [← heq, hbid] at this
                simp only [dLT] at this
                omega
            · exact hall g hg hgev
          · intro c hc hfc
            have hcfacts := hcand c hc
            have : dLE (some (s1.current_timestamp - kthOf s1 id)) (bdist1 s1 f) := hle
            cases hbf : bdist1 s1 f with
            | none => trivial
            | some v =>
              rw [hbf] at this
              simp only [dLE] at this
              simp only [dLT]
              omega
        · rw [if_neg htmp] at hres
          have hcand' : ∀ c, cand = some c → c ∈ s1.is_evictable ∧
              kthOf s1 c ≠ INT_MAX ∧ mmax = s1.current_timestamp - kthOf s1 c ∧
              0 < mmax ∧ ∀ g ∈ rest, faOf s1 c < faOf s1 g := by
            intro c hc
            obtain ⟨h1, h2, h3, h4, h5⟩ := hcand c hc
            exact ⟨h1, h2, h3, h4, fun g hg => h5 g (List.mem_cons_of_mem _ hg)⟩
          obtain ⟨hmem, hle, hall, hne⟩ :=
            ih _ _ f hpair_rest hpos_rest hcand0 hcand' hres
          have hbid : bdist1 s1 id = some (s1.current_timestamp - kthOf s1 id) := by
            rw [bdist1, if_neg hks]
          refine ⟨?_, hle, ?_, hne⟩
          · rcases hmem with ⟨hfe, hfr⟩ | hfc
            · exact Or.inl ⟨hfe, List.mem_cons_of_mem _ hfr⟩
            · exact Or.inr hfc
          · intro g hg hgev
            rcases List.mem_cons.mp hg with hg | hg
            · subst hg
              refine ⟨?_, ?_⟩
              · rw [hbid]
                exact dLE_some_mono _ _ _ (by omega) hle
              · intro heq
                rw [hbid] at heq
                have heq' : bdist1 s1 f = some (s1.current_timestamp - kthOf s1 g) := heq.symm
                have hmm : mmax = s1.current_timestamp - kthOf s1 g := by
                  rw [heq'] at hle
                  simp only [dLE] at hle
                  omega
                cases hc : cand with
                | none =>
                  have h0 : mmax = 0 := hcand0 hc
                  omega
                | some c =>
                  by_cases hfc : f = c
                  · obtain ⟨_, _, _, _, h5⟩ := hcand c hc
                    rw [hfc]
                    exact le_of_lt (h5 g (List.mem_cons_self _ _))
                  · have := hne c hc hfc
                    rw [heq'] at this
                    simp only [dLT] at this
                    omega
            · exact hall g hg hgev
    · rw [if_neg hev] at hres
      have hcand' : ∀ c, cand = some c → c ∈ s1.is_evictable ∧
          kthOf s1 c ≠ INT_MAX ∧ mmax = s1.current_timestamp - kthOf s1 c ∧
          0 < mmax ∧ ∀ g ∈ rest, faOf s1 c < faOf s1 g := by
        intro c hc
        obtain ⟨h1, h2, h3, h4, h5⟩ := hcand c hc
        exact ⟨h1, h2, h3, h4, fun g hg => h5 g (List.mem_cons_of_mem _ hg)⟩
      obtain ⟨hmem, hle, hall, hne⟩ :=
        ih _ _ f hpair_rest hpos_rest hcand0 hcand' hres
      refine ⟨?_, hle, ?_, hne⟩
      · rcases hmem with ⟨hfe, hfr⟩ | hfc
        · exact Or.inl ⟨hfe, List.mem_cons_of_mem _ hfr⟩
        · exact Or.inr hfc
      · intro g hg hgev
        rcases List.mem_cons.mp hg with hg | hg
        · rw [hg] at hgev
          exact absurd hgev hev
        · exact hall g hg hgev

theorem vecinv_kth (cur k : Nat) (vec : List Nat) (hk : 1 ≤ k)
    (h : VecInv cur k vec) :
    vec.getD (k - 1) 0 = INT_MAX ∨ vec.getD (k - 1) 0 ≤ cur := by
  obtain ⟨ts, hveq, h1, h2, h3⟩ := h
  by_cases hc : ts.length < k
  · left
    rw [hveq, getD_append_right_list _ _ _ _ (by omega),
      getD_replicate_lt _ _ _ _ (by omega)]
  · right
    have hck : ts.length = k := by omega
    have hveq2 : vec = ts := by
      rw [hveq, hck]
      simp
    rw [hveq2]
    exact (h3 _ (getD_mem_of_lt ts (k - 1) 0 (by omega))).1

theorem kthOf_bumpClock (s : ReplacerState) (g : Nat) :
    kthOf (bumpClock s) g = kthOf s g := rfl

theorem faOf_bumpClock (s : ReplacerState) (g : Nat) :
    faOf (bumpClock s) g = faOf s g := rfl

theorem bdist1_bumpClock (s : ReplacerState) (g : Nat) :
    bdist1 (bumpClock s) g = bdist (s.current_timestamp + 1) s g := rfl

theorem current_bumpClock (s : ReplacerState) :
    (bumpClock s).current_timestamp = s.current_timestamp + 1 := rfl

/-- Shared core of `Evict` (and of the at-capacity scan of
`RecordAccess` when every evictable frame has a full history): the scan
over `lru_` returns exactly a frame satisfying the spec's
victim-selection rule. -/
theorem evictLoop_victim (s : ReplacerState) (hinv : RInv s) (hk : 1 ≤ s.k)
    (hne : s.is_evictable ≠ []) :
    ∃ f, evictLoop (bumpClock s) (bumpClock s).lru 0 none = some f ∧ IsVictim s f := by
  have hpos : ∀ g ∈ (bumpClock s).lru, g ∈ (bumpClock s).is_evictable →
      kthOf (bumpClock s) g = INT_MAX ∨
      kthOf (bumpClock s) g < (bumpClock s).current_timestamp := by
    intro g hg _
    have hv := hinv.vec_inv g hg
    rcases vecinv_kth _ _ _ hk hv with h' | h'
    · exact Or.inl h'
    · right
      show kthOf s g < s.current_timestamp + 1
      simp only [kthOf]
      omega
  have hpair : (bumpClock s).lru.Pairwise
      (fun a b => faOf (bumpClock s) a < faOf (bumpClock s) b) := hinv.sorted
  cases hres : evictLoop (bumpClock s) (bumpClock s).lru 0 none with
  | none =>
    exfalso
    obtain ⟨_, hall⟩ := evictLoop_none_spec (bumpClock s) (bumpClock s).lru 0 none hres
    obtain ⟨g, hg⟩ := List.exists_mem_of_ne_nil _ hne
    have hglru : g ∈ (bumpClock s).lru := hinv.ev_sub g hg
    obtain ⟨hks, hle⟩ := hall g hglru hg
    rw [current_bumpClock, kthOf_bumpClock] at hle
    rcases hpos g hglru hg with h' | h'
    · exact hks h'
    · rw [kthOf_bumpClock, current_bumpClock] at h'
      omega
  | some f =>
    obtain ⟨hmem, _, hall, _⟩ := evictLoop_some_spec (bumpClock s) (bumpClock s).lru 0 none f
      hpair hpos (fun _ => rfl) (fun c hc => by cases hc) hres
    refine ⟨f, rfl, ?_, ?_⟩
    · rcases hmem with ⟨hfe, _⟩ | hfc
      · exact hfe
      · cases hfc
    · intro g hg
      have hglru : g ∈ (bumpClock s).lru := hinv.ev_sub g hg
      obtain ⟨h1, h2⟩ := hall g hglru hg
      rw [bdist1_bumpClock, bdist1_bumpClock] at h1 h2
      exact ⟨h1, h2⟩

/-- The general half of C1 stated over operation sequences: after any
sequence of `record_access`/`set_evictable` calls (fewer than `INT_MAX`
of them, so that timestamps stay below the sentinel), if at least one
evictable frame exists then `Evict` succeeds and returns a frame
satisfying the spec's victim rule. -/
theorem evict_returns_spec_victim (num_frames k : Nat) (ops : List ReplOp)
    (hk : 1 ≤ k) (hlen : ops.length < INT_MAX)
    (hne : (runRepl num_frames k ops).is_evictable ≠ []) :
    ∃ f, (evict (runRepl num_frames k ops)).1 = some f ∧
      IsVictim (runRepl num_frames k ops) f := by
  obtain ⟨hinv, _, hkk, _⟩ := runRepl_rinv num_frames k ops hk hlen
  obtain ⟨f, hf, hvict⟩ := evictLoop_victim (runRepl num_frames k ops) hinv
    (by rw [hkk]; exact hk) hne
  refine ⟨f, ?_, hvict⟩
  unfold evict
  rw [hf]

/-- C1.  For every sequence of `record_access` and `set_evictable`
calls, a subsequent `evict`, whenever at least one evictable frame
exists, returns the evictable frame with maximum backward K-distance
(`+infinity` for frames with fewer than K recorded accesses, otherwise
current time minus the K-th most recent timestamp), ties broken by
least-recent first access; and in the literal LRU-2 scenario (accesses
1,2,3,4,1, all four frames evictable) four successive evictions return
frames 2, 3, 4, 1. -/
theorem C1_evict_max_backward_kdistance :
    (∀ (num_frames k : Nat) (ops : List ReplOp), 1 ≤ k → ops.length < INT_MAX →
      (runRepl num_frames k ops).is_evictable ≠ [] →
      ∃ f, (evict (runRepl num_frames k ops)).1 = some f ∧
        IsVictim (runRepl num_frames k ops) f) ∧
    evictSeq (runRepl 4 2 c1Ops) 4 = [2, 3, 4, 1] :=
  ⟨evict_returns_spec_victim, by decide⟩

/-- Witness for C1: the scenario state has an evictable frame, and the
theorem applies to it, the first eviction being frame 2. -/
theorem C1_witness :
    (runRepl 4 2 c1Ops).is_evictable ≠ [] ∧
    (∃ f, (evict (runRepl 4 2 c1Ops)).1 = some f ∧ IsVictim (runRepl 4 2 c1Ops) f) :=
  ⟨by decide, C1_evict_max_backward_kdistance.1 4 2 c1Ops (by decide) (by decide) (by decide)⟩

/-! ### The at-capacity behaviour of RecordAccess (C10) -/

theorem evictLoop_no_ev (s : ReplacerState) (l : List Nat) :
    ∀ (mmax : Nat) (cand : Option Nat), (∀ g ∈ l, g ∉ s.is_evictable) →
      evictLoop s l mmax cand = cand := by
  induction l with
  | nil => intro mmax cand _; rfl
  | cons id rest ih =>
    intro mmax cand hno
    simp only [evictLoop]
    rw [if_neg (hno id (List.mem_cons_self _ _))]
    exact ih _ _ (fun g hg => hno g (List.mem_cons_of_mem _ hg))

/-- When every evictable frame in the scanned list has a full history,
the in-loop erasure branch of the capacity scan is never taken and the
scan coincides with the `Evict` loop, leaving the state untouched. -/
theorem overflowLoop_no_inf (s : ReplacerState) (l : List Nat) :
    ∀ (mmax : Nat) (cand : Option Nat),
      (∀ g ∈ l, g ∈ s.is_evictable → kthOf s g ≠ INT_MAX) →
      overflowLoop s l mmax cand = (s, evictLoop s l mmax cand) := by
  induction l with
  | nil => intro mmax cand _; rfl
  | cons id rest ih =>
    intro mmax cand hfin
    simp only [overflowLoop, evictLoop]
    by_cases hev : id ∈ s.is_evictable
    · rw [if_pos hev, if_pos hev,
        if_neg (hfin id (List.mem_cons_self _ _) hev),
        if_neg (hfin id (List.mem_cons_self _ _) hev)]
      by_cases htmp : s.current_timestamp - kthOf s id > mmax
      · rw [if_pos htmp, if_pos htmp]
        exact ih _ _ (fun g hg => hfin g (List.mem_cons_of_mem _ hg))
      · rw [if_neg htmp, if_neg htmp]
        exact ih _ _ (fun g hg => hfin g (List.mem_cons_of_mem _ hg))
    · rw [if_neg hev, if_neg hev]
      exact ih _ _ (fun g hg => hfin g (List.mem_cons_of_mem _ hg))

theorem tracked_bumpClock (s : ReplacerState) (f : Nat) :
    tracked (bumpClock s) f = tracked s f := rfl

/-- C10 (amended).  When `record_access` hits an untracked frame while
the replacer already tracks `num_frames` frames: if no tracked frame is
evictable, nothing is removed and the new frame is still appended, so
the tracked population reaches `num_frames + 1`; if every evictable
frame has a full (K-access) history, exactly the LRU-K victim is
removed from tracking before the new frame is appended — so a
`record_access` call can indeed untrack a different frame as a side
effect, but the tracked population is not in general bounded by
`num_frames`. -/
theorem C10_recordAccess_at_capacity (num_frames k : Nat) (ops : List ReplOp)
    (fid : Nat) (hk : 1 ≤ k) (hlen : ops.length < INT_MAX)
    (hfull : (runRepl num_frames k ops).lru.length = num_frames)
    (hnew : tracked (runRepl num_frames k ops) fid = false) :
    ((runRepl num_frames k ops).is_evictable = [] →
      (recordAccess (runRepl num_frames k ops) fid).lru
        = (runRepl num_frames k ops).lru ++ [fid] ∧
      (recordAccess (runRepl num_frames k ops) fid).lru.length = num_frames + 1) ∧
    ((runRepl num_frames k ops).is_evictable ≠ [] →
      (∀ g ∈ (runRepl num_frames k ops).is_evictable,
        kthOf (runRepl num_frames k ops) g ≠ INT_MAX) →
      ∃ v, IsVictim (runRepl num_frames k ops) v ∧
        (recordAccess (runRepl num_frames k ops) fid).lru
          = (runRepl num_frames k ops).lru.filter (· ≠ v) ++ [fid]) := by
  obtain ⟨hinv, _, hkk, hsize⟩ := runRepl_rinv num_frames k ops hk hlen
  have hra : recordAccess (runRepl num_frames k ops) fid
      = insertFreshFrame (recordAccessScan (bumpClock (runRepl num_frames k ops))) fid := by
    unfold recordAccess
    rw [tracked_bumpClock, hnew]
    simp
  have hfull1 : (bumpClock (runRepl num_frames k ops)).lru.length
      = (bumpClock (runRepl num_frames k ops)).replacer_size := by
    show (runRepl num_frames k ops).lru.length = (runRepl num_frames k ops).replacer_size
    rw [hfull, hsize]
  constructor
  · intro hev
    have hnoev : ∀ g ∈ (bumpClock (runRepl num_frames k ops)).lru,
        g ∉ (bumpClock (runRepl num_frames k ops)).is_evictable := by
      intro g _
      show g ∉ (runRepl num_frames k ops).is_evictable
      rw [hev]
      simp
    have hscan : recordAccessScan (bumpClock (runRepl num_frames k ops))
        = bumpClock (runRepl num_frames k ops) := by
      unfold recordAccessScan
      rw [if_pos hfull1, overflowLoop_no_inf _ _ _ _
        (fun g hg hgev => absurd hgev (hnoev g hg)),
        evictLoop_no_ev _ _ _ _ hnoev]
    rw [hra, hscan]
    constructor
    · rfl
    · show ((runRepl num_frames k ops).lru ++ [fid]).length = num_frames + 1
      rw [List.length_append, hfull]
      rfl
  · intro hne hfin
    have hfin1 : ∀ g ∈ (bumpClock (runRepl num_frames k ops)).lru,
        g ∈ (bumpClock (runRepl num_frames k ops)).is_evictable →
        kthOf (bumpClock (runRepl num_frames k ops)) g ≠ INT_MAX := by
      intro g _ hgev
      exact hfin g hgev
    obtain ⟨f, hf, hvict⟩ := evictLoop_victim (runRepl num_frames k ops) hinv
      (by rw [hkk]; exact hk) hne
    have hscan : recordAccessScan (bumpClock (runRepl num_frames k ops))
        = removeFrame (bumpClock (runRepl num_frames k ops)) f := by
      unfold recordAccessScan
      rw [if_pos hfull1, overflowLoop_no_inf _ _ _ _ hfin1, hf]
    refine ⟨f, hvict, ?_⟩
    rw [hra, hscan]
    rfl

/-- Counterexample to C10 as stated: with `num_frames = 1` and `K = 2`,
accessing frame 1 (left non-evictable) and then the untracked frame 2
makes the replacer track two frames — the scan finds no evictable
victim, removes nothing, and inserts anyway, so the tracked population
exceeds `num_frames`. -/
theorem C10_counterexample :
    (runRepl 1 2 [ReplOp.ra 1, ReplOp.ra 2]).lru = [1, 2] ∧
    (runRepl 1 2 [ReplOp.ra 1, ReplOp.ra 2]).replacer_size = 1 ∧
    (runRepl 1 2 [ReplOp.ra 1, ReplOp.ra 2]).lru.length > 1 := by
  decide

/-- Concrete run exercising the victim-removal branch of the amended
C10: two frames with full single-access histories at `K = 1`, both
evictable; accessing untracked frame 3 evicts frame 1 (the LRU-1
victim) and appends frame 3. -/
def c10Ops : List ReplOp :=
  [.ra 1, .ra 2, .se 1 true, .se 2 true]

/-- Witness for the amended C10 at a concrete input. -/
theorem C10_witness :
    (runRepl 2 1 c10Ops).is_evictable ≠ [] ∧
    (∃ v, IsVictim (runRepl 2 1 c10Ops) v ∧
      (recordAccess (runRepl 2 1 c10Ops) 3).lru
        = (runRepl 2 1 c10Ops).lru.filter (· ≠ v) ++ [3]) :=
  ⟨by decide,
    (C10_recordAccess_at_capacity 2 1 c10Ops 3 (by decide) (by decide) (by decide)
      (by decide)).2 (by decide) (by decide)⟩

/-! ## Buffer pool (src/buffer/buffer_pool_manager_instance.cpp)

The frame array `pages_` is embedded as a total function from frame
index to `Page`; executions reachable through the public interface only
ever touch indices below `pool_size_`.  Disk contents are abstracted to
one value per page, and the page table and disk are association lists.
`Remove` on the replacer may `abort()` (contract violation), so
`delete_page` — the only caller — returns `none` on that path and a run
of operations is `Option`-valued. -/

def INVALID_PAGE_ID : Int := -1

structure Page where
  page_id : Int
  pin_count : Int
  is_dirty : Bool
  data : Int

/-- A default-constructed `Page`. -/
def Page.empty : Page :=
  { page_id := INVALID_PAGE_ID, pin_count := 0, is_dirty := false, data := 0 }

structure BPMState where
  pool_size : Nat
  pages : Nat → Page
  page_table : List (Int × Nat)
  free_list : List Nat
  replacer : ReplacerState
  next_page_id : Int
  disk : List (Int × Int)

/-- `BufferPoolManagerInstance(pool_size, disk_manager, replacer_k)`:
every frame starts free. -/
def BPMState.init (pool_size replacer_k : Nat) : BPMState :=
  { pool_size := pool_size, pages := fun _ => Page.empty, page_table := [],
    free_list := List.range pool_size,
    replacer := ReplacerState.init pool_size replacer_k,
    next_page_id := 0, disk := [] }

/-- `LRUKReplacer::Remove`; `none` models the `abort()` on a tracked,
non-evictable frame. -/
def lrukRemove (s : ReplacerState) (fid : Nat) : Option ReplacerState :=
  if tracked (bumpClock s) fid then
    if fid ∈ (bumpClock s).is_evictable then some (removeFrame (bumpClock s) fid)
    else none
  else some (bumpClock s)

/-- Pointwise update of the frame array. -/
def writePageF (pages : Nat → Page) (fid : Nat) (p : Page) : Nat → Page :=
  fun i => if i = fid then p else pages i

/-- The `if (page->IsDirty()) { WritePage; is_dirty_ = false; }` block. -/
def writeBackIfDirty (s : BPMState) (fid : Nat) : BPMState :=
  if (s.pages fid).is_dirty then
    { s with disk := insertA s.disk (s.pages fid).page_id (s.pages fid).data,
             pages := writePageF s.pages fid { s.pages fid with is_dirty := false } }
  else s

/-- `page_table_->Remove(page->GetPageId())`. -/
def dropOldMapping (s : BPMState) (fid : Nat) : BPMState :=
  { s with page_table := eraseA s.page_table (s.pages fid).page_id }

/-- The frame (re)initialisation common to `NewPgImp` and `FetchPgImp`:
reset contents (`datav` is `0` for a new page, the on-disk contents for
a fetch), set page id and pin count, install the mapping, record the
access and pin the frame in the replacer. -/
def installNewPage (s : BPMState) (fid : Nat) (pid : Int) (datav : Int) : BPMState :=
  { s with pages := writePageF s.pages fid
             { s.pages fid with page_id := pid, pin_count := 1, data := datav },
           page_table := insertA s.page_table pid fid,
           replacer := setEvictable (recordAccess s.replacer fid) fid false }

def newPageWith (s : BPMState) (fid : Nat) : Option (Int × Nat) × BPMState :=
  (some (s.next_page_id, fid),
    installNewPage
      (dropOldMapping (writeBackIfDirty { s with next_page_id := s.next_page_id + 1 } fid) fid)
      fid s.next_page_id 0)

/-- `BufferPoolManagerInstance::NewPgImp`: returns the allocated page id
and the frame holding it, or `none` when no free frame exists and the
replacer has no victim. -/
def newPage (s : BPMState) : Option (Int × Nat) × BPMState :=
  match s.free_list with
  | fid :: rest => newPageWith { s with free_list := rest } fid
  | [] =>
    match evict s.replacer with
    | (some fid, r') => newPageWith { s with replacer := r' } fid
    | (none, r') => (none, { s with replacer := r' })

def fetchPageWith (s : BPMState) (fid : Nat) (pid : Int) : Option Nat × BPMState :=
  (some fid,
    installNewPage (dropOldMapping (writeBackIfDirty s fid) fid) fid pid
      ((lookupA s.disk pid).getD 0))

/-- `BufferPoolManagerInstance::FetchPgImp`. -/
def fetchPage (s : BPMState) (pid : Int) : Option Nat × BPMState :=
  match lookupA s.page_table pid with
  | some fid =>
    (some fid,
      { s with replacer := setEvictable (recordAccess s.replacer fid) fid false,
               pages := writePageF s.pages fid
                 { s.pages fid with pin_count := (s.pages fid).pin_count + 1 } })
  | none =>
    match s.free_list with
    | fid :: rest => fetchPageWith { s with free_list := rest } fid pid
    | [] =>
      match evict s.replacer with
      | (some fid, r') => fetchPageWith { s with replacer := r' } fid pid
      | (none, r') => (none, { s with replacer := r' })

/-- The `if (is_dirty) page->is_dirty_ = true;` line of `UnpinPgImp`
(run before the pin-count check). -/
def markDirty (s : BPMState) (fid : Nat) (d : Bool) : BPMState :=
  if d then
    { s with pages := writePageF s.pages fid { s.pages fid with is_dirty := true } }
  else s

def decPin (s : BPMState) (fid : Nat) : BPMState :=
  { s with pages := writePageF s.pages fid
             { s.pages fid with pin_count := (s.pages fid).pin_count - 1 } }

def unpinFrame (s : BPMState) (fid : Nat) (d : Bool) : Bool × BPMState :=
  if ((markDirty s fid d).pages fid).pin_count ≤ 0 then (false, markDirty s fid d)
  else
    if ((decPin (markDirty s fid d) fid).pages fid).pin_count = 0 then
      (true, { decPin (markDirty s fid d) fid with
        replacer := setEvictable (decPin (markDirty s fid d) fid).replacer fid true })
    else (true, decPin (markDirty s fid d) fid)

/-- `BufferPoolManagerInstance::UnpinPgImp`. -/
def unpinPage (s : BPMState) (pid : Int) (d : Bool) : Bool × BPMState :=
  match lookupA s.page_table pid with
  | none => (false, s)
  | some fid => unpinFrame s fid d

/-- `BufferPoolManagerInstance::FlushPgImp`. -/
def flushPage (s : BPMState) (pid : Int) : Bool × BPMState :=
  match lookupA s.page_table pid with
  | none => (false, s)
  | some fid =>
    (true, { s with disk := insertA s.disk pid (s.pages fid).data,
                    pages := writePageF s.pages fid
                      { s.pages fid with is_dirty := false } })

/-- One iteration of `FlushAllPgsImp`. -/
def flushFrame (s : BPMState) (i : Nat) : BPMState :=
  if (s.pages i).page_id ≠ INVALID_PAGE_ID then
    { s with disk := insertA s.disk (s.pages i).page_id (s.pages i).data,
             pages := writePageF s.pages i { s.pages i with is_dirty := false } }
  else s

def flushAllPages (s : BPMState) : BPMState :=
  (List.range s.pool_size).foldl flushFrame s

/-- The eviction tail of `DeletePgImp` once the page is known resident
and unpinned; `none` models the `abort()` inside `LRUKReplacer::Remove`. -/
def deleteUnpinned (s : BPMState) (pid : Int) (fid : Nat) : Option (Bool × BPMState) :=
  match lrukRemove s.replacer fid with
  | none => none
  | some r' =>
    some (true,
      { s with pages := writePageF s.pages fid { s.pages fid with data := 0 },
               page_table := eraseA s.page_table pid,
               replacer := r',
               free_list := s.free_list ++ [fid] })

def deleteFrame (s : BPMState) (pid : Int) (fid : Nat) : Option (Bool × BPMState) :=
  if (s.pages fid).pin_count > 0 then some (false, s)
  else deleteUnpinned s pid fid

/-- `BufferPoolManagerInstance::DeletePgImp`. -/
def deletePage (s : BPMState) (pid : Int) : Option (Bool × BPMState) :=
  match lookupA s.page_table pid with
  | none => some (true, s)
  | some fid => deleteFrame s pid fid

inductive BPMOp where
  | newp
  | fetch (pid : Int)
  | unpin (pid : Int) (d : Bool)
  | flush (pid : Int)
  | flushAll
  | del (pid : Int)

def applyBPMOp (s : BPMState) : BPMOp → Option BPMState
  | .newp => some (newPage s).2
  | .fetch pid => some (fetchPage s pid).2
  | .unpin pid d => some (unpinPage s pid d).2
  | .flush pid => some (flushPage s pid).2
  | .flushAll => some (flushAllPages s)
  | .del pid => Option.map (fun r => r.2) (deletePage s pid)

def runBPMFrom (s : BPMState) : List BPMOp → Option BPMState
  | [] => some s
  | op :: rest =>
    match applyBPMOp s op with
    | some s' => runBPMFrom s' rest
    | none => none

def runBPM (pool_size replacer_k : Nat) (ops : List BPMOp) : Option BPMState :=
  runBPMFrom (BPMState.init pool_size replacer_k) ops

example : (newPage (BPMState.init 2 2)).1 = some (0, 0) := by decide
example : (newPage (newPage (BPMState.init 2 2)).2).1 = some (1, 1) := by decide
example : (newPage (newPage (newPage (BPMState.init 2 2)).2).2).1 = none := by decide

/-! ### Unpin semantics (C6) -/

theorem writePageF_self (pages : Nat → Page) (fid : Nat) (p : Page) :
    writePageF pages fid p fid = p := by
  simp [writePageF]

theorem markDirty_page (s : BPMState) (fid : Nat) (d : Bool) :
    (markDirty s fid d).pages fid
      = { s.pages fid with is_dirty := (s.pages fid).is_dirty || d } := by
  cases d with
  | true => simp [markDirty, writePageF_self]
  | false => simp [markDirty]

theorem markDirty_replacer (s : BPMState) (fid : Nat) (d : Bool) :
    (markDirty s fid d).replacer = s.replacer := by
  cases d <;> simp [markDirty]

theorem decPin_page (s : BPMState) (fid : Nat) :
    (decPin s fid).pages fid
      = { s.pages fid with pin_count := (s.pages fid).pin_count - 1 } := by
  simp [decPin, writePageF_self]

theorem decPin_replacer (s : BPMState) (fid : Nat) :
    (decPin s fid).replacer = s.replacer := rfl

/-- C6.  `unpin_page(page_id, is_dirty)` returns false exactly when the
page is not resident or its pin count was already at most zero; on a
true return it decrements the pin count by one, ORs `is_dirty` into the
frame's dirty bit (so `is_dirty = false` never clears it), and calls
`SetEvictable(frame, true)` exactly when the pin count reaches zero. -/
theorem C6_unpin_page_semantics (s : BPMState) (pid : Int) (d : Bool) :
    ((unpinPage s pid d).1 = false ↔
      lookupA s.page_table pid = none ∨
      ∃ fid, lookupA s.page_table pid = some fid ∧ (s.pages fid).pin_count ≤ 0) ∧
    (∀ fid, lookupA s.page_table pid = some fid → (unpinPage s pid d).1 = true →
      ((unpinPage s pid d).2.pages fid).pin_count = (s.pages fid).pin_count - 1 ∧
      ((unpinPage s pid d).2.pages fid).is_dirty = ((s.pages fid).is_dirty || d) ∧
      (unpinPage s pid d).2.replacer =
        (if (s.pages fid).pin_count - 1 = 0
         then setEvictable s.replacer fid true else s.replacer)) := by
  cases hl : lookupA s.page_table pid with
  | none =>
    have hun : unpinPage s pid d = (false, s) := by
      unfold unpinPage
      rw [hl]
    rw [hun]
    refine ⟨by simp, ?_⟩
    intro fid hfid
    cases hfid
  | some fid =>
    have hun : unpinPage s pid d = unpinFrame s fid d := by
      unfold unpinPage
      rw [hl]
    rw [hun]
    unfold unpinFrame
    have hpin_md : ((markDirty s fid d).pages fid).pin_count = (s.pages fid).pin_count := by
      rw [markDirty_page]
    have hfid_eq : ∀ fid2 : Nat, (some fid = some fid2) → fid2 = fid :=
      fun fid2 h2 => (Option.some.inj h2).symm
    by_cases hpin : ((markDirty s fid d).pages fid).pin_count ≤ 0
    · rw [if_pos hpin]
      constructor
      · simp only [true_iff]
        right
        exact ⟨fid, rfl, by rw [← hpin_md]; exact hpin⟩
      · intro fid2 hfid2 htrue
        cases htrue
    · rw [if_neg hpin]
      have hdec_pin : ((decPin (markDirty s fid d) fid).pages fid).pin_count
          = (s.pages fid).pin_count - 1 := by
        rw [decPin_page, hpin_md]
      have hdec_dirty : ((decPin (markDirty s fid d) fid).pages fid).is_dirty
          = ((s.pages fid).is_dirty || d) := by
        rw [decPin_page]
        show ((markDirty s fid d).pages fid).is_dirty = _
        rw [markDirty_page]
      have hdec_repl : (decPin (markDirty s fid d) fid).replacer = s.replacer := by
        rw [decPin_replacer, markDirty_replacer]
      have hfalse_iff : ¬(some fid = none ∨
          ∃ fid2, some fid = some fid2 ∧ (s.pages fid2).pin_count ≤ 0) := by
        intro hcontra
        rcases hcontra with h2 | ⟨fid2, hfid2, hple⟩
        · cases h2
        · rw [hfid_eq fid2 hfid2] at hple
          rw [← hpin_md] at hple
          omega
      by_cases hz : ((decPin (markDirty s fid d) fid).pages fid).pin_count = 0
      · rw [if_pos hz]
        refine ⟨by simpa using hfalse_iff, ?_⟩
        intro fid2 hfid2 _
        rw [hfid_eq fid2 hfid2]
        refine ⟨hdec_pin, hdec_dirty, ?_⟩
        rw [hdec_pin] at hz
        rw [if_pos hz]
        show setEvictable (decPin (markDirty s fid d) fid).replacer fid true = _
        rw [hdec_repl]
      · rw [if_neg hz]
        refine ⟨by simpa using hfalse_iff, ?_⟩
        intro fid2 hfid2 _
        rw [hfid_eq fid2 hfid2]
        refine ⟨hdec_pin, hdec_dirty, ?_⟩
        rw [hdec_pin] at hz
        rw [if_neg hz, hdec_repl]

/-- Concrete pool state used to instantiate C6: one freshly created
(pinned) page in frame 0. -/
def c6State : BPMState := (newPage (BPMState.init 2 2)).2

/-- Witness for C6: unpinning page 0 of the concrete state succeeds and
has the advertised effects. -/
theorem C6_witness :
    ((unpinPage c6State 0 true).2.pages 0).pin_count = (c6State.pages 0).pin_count - 1 ∧
    ((unpinPage c6State 0 true).2.pages 0).is_dirty = ((c6State.pages 0).is_dirty || true) ∧
    (unpinPage c6State 0 true).2.replacer =
      (if (c6State.pages 0).pin_count - 1 = 0
       then setEvictable c6State.replacer 0 true else c6State.replacer) :=
  (C6_unpin_page_semantics c6State 0 true).2 0 (by decide) (by decide)

/-! ### Exhaustion behaviour of new_page and fetch_page (C7) -/

theorem evict_rinv_fields (s : ReplacerState) (h : RInv s) :
    RInv (evict s).2 ∧ (evict s).2.k = s.k ∧
    (evict s).2.current_timestamp = s.current_timestamp + 1 := by
  unfold evict
  cases hres : evictLoop (bumpClock s) (bumpClock s).lru 0 none with
  | some f =>
    exact ⟨removeFrame_rinv _ _ (rinv_bump s _ (Nat.le_succ _) h), rfl, rfl⟩
  | none =>
    exact ⟨rinv_bump s _ (Nat.le_succ _) h, rfl, rfl⟩

theorem lrukRemove_rinv_fields (s : ReplacerState) (fid : Nat) (r : ReplacerState)
    (h : RInv s) (hrem : lrukRemove s fid = some r) :
    RInv r ∧ r.k = s.k ∧ r.current_timestamp = s.current_timestamp + 1 := by
  unfold lrukRemove at hrem
  by_cases htr : tracked (bumpClock s) fid
  · rw [if_pos htr] at hrem
    by_cases hev : fid ∈ (bumpClock s).is_evictable
    · rw [if_pos hev] at hrem
      rw [← Option.some.inj hrem]
      exact ⟨removeFrame_rinv _ _ (rinv_bump s _ (Nat.le_succ _) h), rfl, rfl⟩
    · rw [if_neg hev] at hrem
      cases hrem
  · rw [if_neg htr] at hrem
    rw [← Option.some.inj hrem]
    exact ⟨rinv_bump s _ (Nat.le_succ _) h, rfl, rfl⟩

theorem recordAccess_fields (s : ReplacerState) (f : Nat) :
    (recordAccess s f).current_timestamp = s.current_timestamp + 1 ∧
    (recordAccess s f).k = s.k :=
  ⟨(applyReplOp_fields s (.ra f)).1, (applyReplOp_fields s (.ra f)).2.1⟩

theorem setEvictable_fields (s : ReplacerState) (f : Nat) (b : Bool) :
    (setEvictable s f b).current_timestamp = s.current_timestamp + 1 ∧
    (setEvictable s f b).k = s.k :=
  ⟨(applyReplOp_fields s (.se f b)).1, (applyReplOp_fields s (.se f b)).2.1⟩

/-- Pool-level invariant: the embedded replacer satisfies its invariant
and was constructed with `k ≥ 1`. -/
def PInv (s : BPMState) : Prop :=
  RInv s.replacer ∧ 1 ≤ s.replacer.k

/-- The replacer produced by the frame (re)initialisation of
`NewPgImp`/`FetchPgImp` keeps the invariant; the clock advances by two. -/
theorem pinRecord_rinv (r : ReplacerState) (fid : Nat) (h : RInv r) (hk : 1 ≤ r.k)
    (hcur : r.current_timestamp + 2 < INT_MAX) :
    RInv (setEvictable (recordAccess r fid) fid false) ∧
    (setEvictable (recordAccess r fid) fid false).k = r.k ∧
    (setEvictable (recordAccess r fid) fid false).current_timestamp
      = r.current_timestamp + 2 := by
  have h1 : RInv (recordAccess r fid) := recordAccess_rinv r fid h hk (by omega)
  refine ⟨setEvictable_rinv _ _ _ h1, ?_, ?_⟩
  · rw [(setEvictable_fields _ _ _).2, (recordAccess_fields _ _).2]
  · rw [(setEvictable_fields _ _ _).1, (recordAccess_fields _ _).1]

theorem installNewPage_replacer (s : BPMState) (fid : Nat) (pid : Int) (v : Int) :
    (installNewPage s fid pid v).replacer
      = setEvictable (recordAccess s.replacer fid) fid false := rfl

theorem writeBackIfDirty_replacer (s : BPMState) (fid : Nat) :
    (writeBackIfDirty s fid).replacer = s.replacer := by
  unfold writeBackIfDirty
  by_cases hd : (s.pages fid).is_dirty <;> simp [hd]

theorem dropOldMapping_replacer (s : BPMState) (fid : Nat) :
    (dropOldMapping s fid).replacer = s.replacer := rfl

theorem newPageWith_replacer (s : BPMState) (fid : Nat) :
    (newPageWith s fid).2.replacer
      = setEvictable (recordAccess s.replacer fid) fid false := by
  unfold newPageWith
  rw [installNewPage_replacer, dropOldMapping_replacer, writeBackIfDirty_replacer]

theorem fetchPageWith_replacer (s : BPMState) (fid : Nat) (pid : Int) :
    (fetchPageWith s fid pid).2.replacer
      = setEvictable (recordAccess s.replacer fid) fid false := by
  unfold fetchPageWith
  rw [installNewPage_replacer, dropOldMapping_replacer, writeBackIfDirty_replacer]

theorem newPage_pinv (s : BPMState) (h : PInv s)
    (hcur : s.replacer.current_timestamp + 3 < INT_MAX) :
    PInv (newPage s).2 ∧
    (newPage s).2.replacer.current_timestamp ≤ s.replacer.current_timestamp + 3 := by
  obtain ⟨hinv, hk⟩ := h
  unfold newPage
  cases hfl : s.free_list with
  | cons fid rest =>
    have := pinRecord_rinv s.replacer fid hinv hk (by omega)
    rw [show ({ s with free_list := rest } : BPMState).replacer = s.replacer from rfl]
      at this
    refine ⟨⟨?_, ?_⟩, ?_⟩
    · rw [newPageWith_replacer]
      exact this.1
    · rw [newPageWith_replacer]
      rw [show (setEvictable (recordAccess ({ s with free_list := rest } : BPMState).replacer fid) fid false).k = s.replacer.k from this.2.1]
      exact hk
    · rw [newPageWith_replacer]
      rw [show (setEvictable (recordAccess ({ s with free_list := rest } : BPMState).replacer fid) fid false).current_timestamp = s.replacer.current_timestamp + 2 from this.2.2]
      omega
  | nil =>
    rcases hev : evict s.replacer with ⟨o, r'⟩
    have hef := evict_rinv_fields s.replacer hinv
    rw [hev] at hef
    cases o with
    | some fid =>
      have hr' : RInv r' := hef.1
      have hrk : r'.k = s.replacer.k := hef.2.1
      have hrc : r'.current_timestamp = s.replacer.current_timestamp + 1 := hef.2.2
      have := pinRecord_rinv r' fid hr' (by rw [hrk]; exact hk) (by omega)
      refine ⟨⟨?_, ?_⟩, ?_⟩
      · rw [newPageWith_replacer]
        exact this.1
      · rw [newPageWith_replacer]
        rw [show (setEvictable (recordAccess ({ s with replacer := r' } : BPMState).replacer fid) fid false).k = r'.k from this.2.1, hrk]
        exact hk
      · rw [newPageWith_replacer]
        rw [show (setEvictable (recordAccess ({ s with replacer := r' } : BPMState).replacer fid) fid false).current_timestamp = r'.current_timestamp + 2 from this.2.2, hrc]
    | none =>
      refine ⟨⟨hef.1, by rw [hef.2.1]; exact hk⟩, by rw [hef.2.2]; omega⟩

theorem fetchPage_pinv (s : BPMState) (pid : Int) (h : PInv s)
    (hcur : s.replacer.current_timestamp + 3 < INT_MAX) :
    PInv (fetchPage s pid).2 ∧
    (fetchPage s pid).2.replacer.current_timestamp
      ≤ s.replacer.current_timestamp + 3 := by
  obtain ⟨hinv, hk⟩ := h
  unfold fetchPage
  cases hl : lookupA s.page_table pid with
  | some fid =>
    have := pinRecord_rinv s.replacer fid hinv hk (by omega)
    exact ⟨⟨this.1, by rw [this.2.1]; exact hk⟩, by rw [this.2.2]; omega⟩
  | none =>
    cases hfl : s.free_list with
    | cons fid rest =>
      have := pinRecord_rinv s.replacer fid hinv hk (by omega)
      refine ⟨⟨?_, ?_⟩, ?_⟩
      · rw [fetchPageWith_replacer]
        exact this.1
      · rw [fetchPageWith_replacer]
        rw [show (setEvictable (recordAccess ({ s with free_list := rest } : BPMState).replacer fid) fid false).k = s.replacer.k from this.2.1]
        exact hk
      · rw [fetchPageWith_replacer]
        rw [show (setEvictable (recordAccess ({ s with free_list := rest } : BPMState).replacer fid) fid false).current_timestamp = s.replacer.current_timestamp + 2 from this.2.2]
        omega
    | nil =>
      rcases hev : evict s.replacer with ⟨o, r'⟩
      have hef := evict_rinv_fields s.replacer hinv
      rw [hev] at hef
      cases o with
      | some fid =>
        have := pinRecord_rinv r' fid hef.1 (by rw [hef.2.1]; exact hk)
          (by rw [hef.2.2]; omega)
        refine ⟨⟨?_, ?_⟩, ?_⟩
        · rw [fetchPageWith_replacer]
          exact this.1
        · rw [fetchPageWith_replacer]
          rw [show (setEvictable (recordAccess ({ s with replacer := r' } : BPMState).replacer fid) fid false).k = r'.k from this.2.1, hef.2.1]
          exact hk
        · rw [fetchPageWith_replacer]
          rw [show (setEvictable (recordAccess ({ s with replacer := r' } : BPMState).replacer fid) fid false).current_timestamp = r'.current_timestamp + 2 from this.2.2, hef.2.2]
      | none =>
        exact ⟨⟨hef.1, by rw [hef.2.1]; exact hk⟩, by rw [hef.2.2]; omega⟩

theorem unpinPage_pinv (s : BPMState) (pid : Int) (d : Bool) (h : PInv s)
    (hcur : s.replacer.current_timestamp + 3 < INT_MAX) :
    PInv (unpinPage s pid d).2 ∧
    (unpinPage s pid d).2.replacer.current_timestamp
      ≤ s.replacer.current_timestamp + 3 := by
  obtain ⟨hinv, hk⟩ := h
  cases hl : lookupA s.page_table pid with
  | none =>
    have hun : unpinPage s pid d = (false, s) := by
      unfold unpinPage
      rw [hl]
    rw [hun]
    show PInv s ∧ s.replacer.current_timestamp ≤ s.replacer.current_timestamp + 3
    exact ⟨⟨hinv, hk⟩, by omega⟩
  | some fid =>
    have hun : unpinPage s pid d = unpinFrame s fid d := by
      unfold unpinPage
      rw [hl]
    rw [hun]
    unfold unpinFrame
    by_cases hpin : ((markDirty s fid d).pages fid).pin_count ≤ 0
    · rw [if_pos hpin]
      show (RInv (markDirty s fid d).replacer ∧ 1 ≤ (markDirty s fid d).replacer.k) ∧
        (markDirty s fid d).replacer.current_timestamp ≤ s.replacer.current_timestamp + 3
      rw [markDirty_replacer]
      exact ⟨⟨hinv, hk⟩, by omega⟩
    · rw [if_neg hpin]
      have hdr : (decPin (markDirty s fid d) fid).replacer = s.replacer := by
        rw [decPin_replacer, markDirty_replacer]
      by_cases hz : ((decPin (markDirty s fid d) fid).pages fid).pin_count = 0
      · rw [if_pos hz]
        show (RInv (setEvictable (decPin (markDirty s fid d) fid).replacer fid true) ∧
            1 ≤ (setEvictable (decPin (markDirty s fid d) fid).replacer fid true).k) ∧
          (setEvictable (decPin (markDirty s fid d) fid).replacer fid
              true).current_timestamp ≤ s.replacer.current_timestamp + 3
        rw [hdr]
        refine ⟨⟨setEvictable_rinv _ _ _ hinv, ?_⟩, ?_⟩
        · rw [(setEvictable_fields _ _ _).2]
          exact hk
        · rw [(setEvictable_fields _ _ _).1]
          omega
      · rw [if_neg hz]
        show (RInv (decPin (markDirty s fid d) fid).replacer ∧
            1 ≤ (decPin (markDirty s fid d) fid).replacer.k) ∧
          (decPin (markDirty s fid d) fid).replacer.current_timestamp
            ≤ s.replacer.current_timestamp + 3
        rw [hdr]
        exact ⟨⟨hinv, hk⟩, by omega⟩

theorem flushPage_pinv (s : BPMState) (pid : Int) (h : PInv s) :
    PInv (flushPage s pid).2 ∧
    (flushPage s pid).2.replacer = s.replacer := by
  unfold flushPage
  cases hl : lookupA s.page_table pid with
  | none => exact ⟨h, rfl⟩
  | some fid => exact ⟨h, rfl⟩

theorem flushFrame_replacer (s : BPMState) (i : Nat) :
    (flushFrame s i).replacer = s.replacer := by
  unfold flushFrame
  by_cases hp : (s.pages i).page_id ≠ INVALID_PAGE_ID <;> simp [hp]

theorem foldl_flushFrame_replacer (l : List Nat) :
    ∀ s : BPMState, (l.foldl flushFrame s).replacer = s.replacer := by
  induction l with
  | nil => intro s; rfl
  | cons i rest ih =>
    intro s
    simp only [List.foldl_cons]
    rw [ih (flushFrame s i), flushFrame_replacer]

theorem deletePage_pinv (s : BPMState) (pid : Int) (s' : BPMState) (h : PInv s)
    (hcur : s.replacer.current_timestamp + 3 < INT_MAX)
    (hdel : Option.map (fun r => r.2) (deletePage s pid) = some s') :
    PInv s' ∧ s'.replacer.current_timestamp ≤ s.replacer.current_timestamp + 3 := by
  obtain ⟨hinv, hk⟩ := h
  cases hl : lookupA s.page_table pid with
  | none =>
    have hd : deletePage s pid = some (true, s) := by
      unfold deletePage
      rw [hl]
    rw [hd] at hdel
    simp only [Option.map_some'] at hdel
    rw [← Option.some.inj hdel]
    show PInv s ∧ s.replacer.current_timestamp ≤ s.replacer.current_timestamp + 3
    exact ⟨⟨hinv, hk⟩, by omega⟩
  | some fid =>
    have hd : deletePage s pid = deleteFrame s pid fid := by
      unfold deletePage
      rw [hl]
    rw [hd] at hdel
    unfold deleteFrame at hdel
    by_cases hpin : (s.pages fid).pin_count > 0
    · rw [if_pos hpin] at hdel
      simp only [Option.map_some'] at hdel
      rw [← Option.some.inj hdel]
      show PInv s ∧ s.replacer.current_timestamp ≤ s.replacer.current_timestamp + 3
      exact ⟨⟨hinv, hk⟩, by omega⟩
    · rw [if_neg hpin] at hdel
      cases hrem : lrukRemove s.replacer fid with
      | none =>
        have hd2 : deleteUnpinned s pid fid = none := by
          unfold deleteUnpinned
          rw [hrem]
        rw [hd2] at hdel
        cases hdel
      | some r' =>
        have hd2 : deleteUnpinned s pid fid = some (true,
            { s with pages := writePageF s.pages fid { s.pages fid with data := 0 },
                     page_table := eraseA s.page_table pid,
                     replacer := r',
                     free_list := s.free_list ++ [fid] }) := by
          unfold deleteUnpinned
          rw [hrem]
        rw [hd2] at hdel
        simp only [Option.map_some'] at hdel
        obtain ⟨hr1, hr2, hr3⟩ := lrukRemove_rinv_fields s.replacer fid r' hinv hrem
        rw [← Option.some.inj hdel]
        exact ⟨⟨hr1, by rw [hr2]; exact hk⟩, by rw [hr3]; omega⟩

theorem applyBPMOp_pinv (s : BPMState) (op : BPMOp) (s' : BPMState) (h : PInv s)
    (hcur : s.replacer.current_timestamp + 3 < INT_MAX)
    (happ : applyBPMOp s op = some s') :
    PInv s' ∧ s'.replacer.current_timestamp ≤ s.replacer.current_timestamp + 3 := by
  cases op with
  | newp =>
    rw [← Option.some.inj happ]
    exact newPage_pinv s h hcur
  | fetch pid =>
    rw [← Option.some.inj happ]
    exact fetchPage_pinv s pid h hcur
  | unpin pid d =>
    rw [← Option.some.inj happ]
    exact unpinPage_pinv s pid d h hcur
  | flush pid =>
    rw [← Option.some.inj happ]
    obtain ⟨h1, h2⟩ := flushPage_pinv s pid h
    exact ⟨h1, by rw [h2]; omega⟩
  | flushAll =>
    rw [← Option.some.inj happ]
    have := foldl_flushFrame_replacer (List.range s.pool_size) s
    refine ⟨?_, ?_⟩
    · show PInv (flushAllPages s)
      unfold flushAllPages
      rw [PInv, this]
      exact h
    · show (flushAllPages s).replacer.current_timestamp ≤ _
      unfold flushAllPages
      rw [this]
      omega
  | del pid =>
    exact deletePage_pinv s pid s' h hcur happ

theorem runBPMFrom_pinv (ops : List BPMOp) :
    ∀ (s s' : BPMState), PInv s →
      s.replacer.current_timestamp + 3 * ops.length + 3 < INT_MAX →
      runBPMFrom s ops = some s' → PInv s' := by
  induction ops with
  | nil =>
    intro s s' h _ hrun
    rw [← Option.some.inj hrun]
    exact h
  | cons op rest ih =>
    intro s s' h hlen hrun
    unfold runBPMFrom at hrun
    cases happ : applyBPMOp s op with
    | none =>
      rw [happ] at hrun
      cases hrun
    | some s1 =>
      rw [happ] at hrun
      simp only [List.length_cons] at hlen
      obtain ⟨h1, hc1⟩ := applyBPMOp_pinv s op s1 h (by omega) happ
      exact ih s1 s' h1 (by omega) hrun

theorem runBPM_pinv (pool_size replacer_k : Nat) (ops : List BPMOp) (s : BPMState)
    (hk : 1 ≤ replacer_k) (hlen : 3 * ops.length + 3 < INT_MAX)
    (hrun : runBPM pool_size replacer_k ops = some s) : PInv s := by
  refine runBPMFrom_pinv ops _ s ⟨rinv_init _ _, ?_⟩ ?_ hrun
  · simpa [ReplacerState.init] using hk
  · simpa [ReplacerState.init, BPMState.init] using hlen

/-- Under the invariant, `Evict` fails exactly when no evictable frame
exists. -/
theorem evict_none_iff (s : ReplacerState) (hinv : RInv s) (hk : 1 ≤ s.k) :
    (evict s).1 = none ↔ s.is_evictable = [] := by
  constructor
  · intro h
    by_contra hne
    obtain ⟨f, hf, _⟩ := evictLoop_victim s hinv hk hne
    unfold evict at h
    rw [hf] at h
    cases h
  · intro hev
    unfold evict
    rw [evictLoop_no_ev (bumpClock s) (bumpClock s).lru 0 none ?_]
    intro g _
    show g ∉ s.is_evictable
    rw [hev]
    simp

theorem bpm_none_iff (s : BPMState) (h : PInv s) :
    ((newPage s).1 = none ↔ s.free_list = [] ∧ s.replacer.is_evictable = []) ∧
    (∀ pid, lookupA s.page_table pid = none →
      ((fetchPage s pid).1 = none ↔
        s.free_list = [] ∧ s.replacer.is_evictable = [])) := by
  obtain ⟨hinv, hk⟩ := h
  have hiff := evict_none_iff s.replacer hinv hk
  constructor
  · unfold newPage
    cases hfl : s.free_list with
    | cons fid rest =>
      simp only [newPageWith]
      constructor
      · intro hcontra
        cases hcontra
      · intro hcontra
        cases hcontra.1
    | nil =>
      rcases hev : evict s.replacer with ⟨o, r'⟩
      cases o with
      | some fid =>
        simp only [newPageWith]
        constructor
        · intro hcontra
          cases hcontra
        · intro hcontra
          have : (evict s.replacer).1 = none := hiff.mpr hcontra.2
          rw [hev] at this
          cases this
      | none =>
        constructor
        · intro _
          refine ⟨rfl, ?_⟩
          apply hiff.mp
          rw [hev]
        · intro _
          rfl
  · intro pid hpid
    have hfu : fetchPage s pid =
        (match s.free_list with
         | fid :: rest => fetchPageWith { s with free_list := rest } fid pid
         | [] =>
           match evict s.replacer with
           | (some fid, r') => fetchPageWith { s with replacer := r' } fid pid
           | (none, r') => (none, { s with replacer := r' })) := by
      unfold fetchPage
      rw [hpid]
    rw [hfu]
    cases hfl : s.free_list with
    | cons fid rest =>
      simp only [fetchPageWith]
      constructor
      · intro hcontra
        cases hcontra
      · intro hcontra
        cases hcontra.1
    | nil =>
      rcases hev : evict s.replacer with ⟨o, r'⟩
      cases o with
      | some fid =>
        simp only [fetchPageWith]
        constructor
        · intro hcontra
          cases hcontra
        · intro hcontra
          have : (evict s.replacer).1 = none := hiff.mpr hcontra.2
          rw [hev] at this
          cases this
      | none =>
        constructor
        · intro _
          refine ⟨rfl, ?_⟩
          apply hiff.mp
          rw [hev]
        · intro _
          rfl

/-- C7.  `new_page` (and `fetch_page` on a non-resident page) returns
`none` exactly when the free list is empty and the replacer has no
evictable frame; and with `pool_size = 2`, two `new_page` calls yield
page ids 0 and 1 in frames 0 and 1 respectively, while a third without
any intervening unpin returns `none`. -/
theorem C7_new_page_exhaustion :
    (∀ (pool_size replacer_k : Nat) (ops : List BPMOp) (s : BPMState),
      1 ≤ replacer_k → 3 * ops.length + 3 < INT_MAX →
      runBPM pool_size replacer_k ops = some s →
      (((newPage s).1 = none ↔ s.free_list = [] ∧ s.replacer.is_evictable = []) ∧
       (∀ pid, lookupA s.page_table pid = none →
        ((fetchPage s pid).1 = none ↔
          s.free_list = [] ∧ s.replacer.is_evictable = [])))) ∧
    (newPage (BPMState.init 2 2)).1 = some (0, 0) ∧
    (newPage (newPage (BPMState.init 2 2)).2).1 = some (1, 1) ∧
    (newPage (newPage (newPage (BPMState.init 2 2)).2).2).1 = none := by
  refine ⟨?_, by decide, by decide, by decide⟩
  intro pool_size replacer_k ops s hk hlen hrun
  exact bpm_none_iff s (runBPM_pinv pool_size replacer_k ops s hk hlen hrun)

/-- Witness for C7: the two-new-page state of the boundary scenario is
reachable, and the theorem's equivalence holds of it. -/
theorem C7_witness :
    ((newPage (newPage (newPage (BPMState.init 2 2)).2).2).1 = none ↔
      (newPage (newPage (BPMState.init 2 2)).2).2.free_list = [] ∧
      (newPage (newPage (BPMState.init 2 2)).2).2.replacer.is_evictable = []) :=
  (C7_new_page_exhaustion.1 2 2 [BPMOp.newp, BPMOp.newp]
    (newPage (newPage (BPMState.init 2 2)).2).2 (by decide) (by decide) rfl).1

/-! ## Lock manager (src/concurrency/lock_manager.cpp)

Transactions are addressed by id through a transaction map (the
`TransactionManager` collaborator); a lock call looks the transaction
up and mutates its record in place.  Blocking on the condition variable
is modelled single-step: a request that is not immediately grantable is
left pending in the queue and the call returns `blocked`.  The plain
`return false` paths of the source (no exception, no abort) return
`failed`, and the `throw std::logic_error` on terminal transactions
returns `invalid`. -/

def INVALID_TXN_ID : Int := -1

inductive LockMode where
  | shared
  | exclusive
  | intention_shared
  | intention_exclusive
  | shared_intention_exclusive
  deriving Repr, DecidableEq

inductive IsolationLevel where
  | read_uncommitted
  | read_committed
  | repeatable_read
  deriving Repr, DecidableEq

inductive TransactionState where
  | growing
  | shrinking
  | committed
  | aborted
  deriving Repr, DecidableEq

inductive AbortReason where
  | lock_on_shrinking
  | lock_shared_on_read_uncommitted
  | upgrade_conflict
  | incompatible_upgrade
  | attempted_unlock_but_no_lock_held
  | attempted_intention_lock_on_row
  | table_lock_not_present
  | table_unlocked_before_unlocking_rows
  deriving Repr, DecidableEq

structure Transaction where
  isolation_level : IsolationLevel
  state : TransactionState
  shared_table_locks : List Int
  exclusive_table_locks : List Int
  intention_shared_table_locks : List Int
  intention_exclusive_table_locks : List Int
  shared_intention_exclusive_table_locks : List Int
  shared_row_locks : List (Int × List Int)
  exclusive_row_locks : List (Int × List Int)
  deriving Repr, DecidableEq

def Transaction.fresh (level : IsolationLevel) : Transaction :=
  { isolation_level := level, state := .growing,
    shared_table_locks := [], exclusive_table_locks := [],
    intention_shared_table_locks := [], intention_exclusive_table_locks := [],
    shared_intention_exclusive_table_locks := [],
    shared_row_locks := [], exclusive_row_locks := [] }

structure LockRequest where
  txn_id : Int
  lock_mode : LockMode
  oid : Int
  rid : Int
  granted : Bool
  deriving Repr, DecidableEq

structure LockRequestQueue where
  request_queue : List LockRequest
  upgrading : Int
  deriving Repr, DecidableEq

def LockRequestQueue.empty : LockRequestQueue :=
  { request_queue := [], upgrading := INVALID_TXN_ID }

structure LMState where
  txns : List (Int × Transaction)
  table_lock_map : List (Int × LockRequestQueue)
  row_lock_map : List (Int × LockRequestQueue)
  deriving Repr, DecidableEq

inductive LockOutcome where
  | granted
  | blocked
  | failed
  | aborted (reason : AbortReason)
  | invalid
  deriving Repr, DecidableEq

/-- `LockManager::CheckCompatibility(hold_mode, want_mode)`. -/
def checkCompatibility (hold want : LockMode) : Bool :=
  if hold = .intention_shared ∧ want = .exclusive then false
  else if hold = .intention_exclusive ∧
      (want = .shared ∨ want = .shared_intention_exclusive ∨ want = .exclusive) then false
  else if hold = .shared ∧
      (want = .intention_exclusive ∨ want = .shared_intention_exclusive ∨
        want = .exclusive) then false
  else if hold = .shared_intention_exclusive ∧ want ≠ .intention_shared then false
  else if hold = .exclusive then false
  else true

/-- The cascade of `INCOMPATIBLE_UPGRADE` checks of `LockTable` (an
`IS` holder may upgrade to anything). -/
def illegalUpgrade (old new : LockMode) : Bool :=
  (old = .shared ∧ new ≠ .exclusive ∧ new ≠ .shared_intention_exclusive) ∨
  (old = .intention_exclusive ∧ new ≠ .exclusive ∧ new ≠ .shared_intention_exclusive) ∨
  (old = .shared_intention_exclusive ∧ new ≠ .exclusive) ∨
  old = .exclusive

def setTxn (st : LMState) (tid : Int) (txn : Transaction) : LMState :=
  { st with txns := insertA st.txns tid txn }

/-- Mark the transaction aborted and surface the typed failure. -/
def abortWith (st : LMState) (tid : Int) (txn : Transaction) (r : AbortReason) :
    LockOutcome × LMState :=
  (.aborted r, setTxn st tid { txn with state := .aborted })

def addTableLock (txn : Transaction) (mode : LockMode) (oid : Int) : Transaction :=
  match mode with
  | .exclusive => { txn with exclusive_table_locks := txn.exclusive_table_locks ++ [oid] }
  | .shared => { txn with shared_table_locks := txn.shared_table_locks ++ [oid] }
  | .intention_exclusive =>
    { txn with intention_exclusive_table_locks := txn.intention_exclusive_table_locks ++ [oid] }
  | .intention_shared =>
    { txn with intention_shared_table_locks := txn.intention_shared_table_locks ++ [oid] }
  | .shared_intention_exclusive =>
    { txn with shared_intention_exclusive_table_locks :=
        txn.shared_intention_exclusive_table_locks ++ [oid] }

def eraseTableLock (txn : Transaction) (mode : LockMode) (oid : Int) : Transaction :=
  match mode with
  | .exclusive => { txn with exclusive_table_locks := txn.exclusive_table_locks.filter (· ≠ oid) }
  | .shared => { txn with shared_table_locks := txn.shared_table_locks.filter (· ≠ oid) }
  | .intention_exclusive =>
    { txn with intention_exclusive_table_locks :=
        txn.intention_exclusive_table_locks.filter (· ≠ oid) }
  | .intention_shared =>
    { txn with intention_shared_table_locks :=
        txn.intention_shared_table_locks.filter (· ≠ oid) }
  | .shared_intention_exclusive =>
    { txn with shared_intention_exclusive_table_locks :=
        txn.shared_intention_exclusive_table_locks.filter (· ≠ oid) }

/-- Mark the (unique) request of a transaction granted. -/
def markGrantedTable (l : List LockRequest) (tid : Int) : List LockRequest :=
  l.map (fun r => if r.txn_id = tid then { r with granted := true } else r)

def markGrantedRow (l : List LockRequest) (tid oid : Int) : List LockRequest :=
  l.map (fun r => if r.txn_id = tid ∧ r.oid = oid then { r with granted := true } else r)

/-- The FIFO-priority walk at the end of `GrantTableLock`. -/
def prioScanTable (tid : Int) (mode : LockMode) : List LockRequest → Bool
  | [] => false
  | r :: rest =>
    if r.txn_id = tid then true
    else if ¬r.granted ∧ ¬checkCompatibility r.lock_mode mode then false
    else prioScanTable tid mode rest

/-- `LockManager::GrantTableLock`, acting on the queue that already
contains the transaction's pending request. -/
def grantTableLock (q : LockRequestQueue) (tid : Int) (mode : LockMode) :
    Bool × LockRequestQueue :=
  if q.request_queue.any (fun r => r.granted ∧ ¬checkCompatibility r.lock_mode mode) then
    (false, q)
  else if q.upgrading = tid then
    (true, { q with upgrading := INVALID_TXN_ID,
                    request_queue := markGrantedTable q.request_queue tid })
  else if q.upgrading ≠ INVALID_TXN_ID then (false, q)
  else if prioScanTable tid mode q.request_queue then
    (true, { q with request_queue := markGrantedTable q.request_queue tid })
  else (false, q)

def prioScanRow (tid oid : Int) (mode : LockMode) : List LockRequest → Bool
  | [] => false
  | r :: rest =>
    if r.txn_id = tid ∧ r.oid = oid then true
    else if ¬r.granted ∧ ¬checkCompatibility r.lock_mode mode then false
    else prioScanRow tid oid mode rest

/-- `LockManager::GrantRowLock`. -/
def grantRowLock (q : LockRequestQueue) (tid oid : Int) (mode : LockMode) :
    Bool × LockRequestQueue :=
  if q.request_queue.any (fun r => r.granted ∧ ¬checkCompatibility r.lock_mode mode) then
    (false, q)
  else if q.upgrading = tid then
    (true, { q with upgrading := INVALID_TXN_ID,
                    request_queue := markGrantedRow q.request_queue tid oid })
  else if q.upgrading ≠ INVALID_TXN_ID then (false, q)
  else if prioScanRow tid oid mode q.request_queue then
    (true, { q with request_queue := markGrantedRow q.request_queue tid oid })
  else (false, q)

/-- Append the new request and try to grant it once; store the queue
back and, on a grant, update the transaction's table-lock bookkeeping. -/
def tryAcquireTable (st : LMState) (txn : Transaction) (tid : Int) (mode : LockMode)
    (oid : Int) (q : LockRequestQueue) : LockOutcome × LMState :=
  match grantTableLock
      { q with request_queue :=
          q.request_queue ++ [⟨tid, mode, oid, 0, false⟩] } tid mode with
  | (true, q2) =>
    (.granted,
      { setTxn st tid (addTableLock txn mode oid) with
          table_lock_map := insertA st.table_lock_map oid q2 })
  | (false, q2) =>
    (.blocked,
      { setTxn st tid txn with table_lock_map := insertA st.table_lock_map oid q2 })

/-- Steps 3-5 of `LockTable` once the validation has passed and the
queue has been located (or created). -/
def lockTableFound (st : LMState) (txn : Transaction) (tid : Int) (mode : LockMode)
    (oid : Int) (q : LockRequestQueue) : LockOutcome × LMState :=
  match q.request_queue.find? (fun r => r.txn_id = tid) with
  | some req =>
    if ¬req.granted then abortWith st tid txn .incompatible_upgrade
    else if req.lock_mode = mode then (.granted, st)
    else if q.upgrading ≠ INVALID_TXN_ID then abortWith st tid txn .upgrade_conflict
    else if illegalUpgrade req.lock_mode mode then abortWith st tid txn .incompatible_upgrade
    else
      tryAcquireTable st (eraseTableLock txn req.lock_mode oid) tid mode oid
        { q with request_queue := q.request_queue.erase req, upgrading := tid }
  | none => tryAcquireTable st txn tid mode oid q

/-- `LockManager::LockTable`. -/
def lockTable (st : LMState) (tid : Int) (mode : LockMode) (oid : Int) :
    LockOutcome × LMState :=
  match lookupA st.txns tid with
  | none => (.invalid, st)
  | some txn =>
    if txn.state = .committed ∨ txn.state = .aborted then (.invalid, st)
    else if txn.state = .shrinking ∧ txn.isolation_level = .repeatable_read then
      abortWith st tid txn .lock_on_shrinking
    else if txn.state = .shrinking ∧ txn.isolation_level = .read_committed ∧
        mode ≠ .shared ∧ mode ≠ .intention_shared then
      abortWith st tid txn .lock_on_shrinking
    else if txn.isolation_level = .read_uncommitted ∧
        (mode = .shared ∨ mode = .intention_shared ∨
          mode = .shared_intention_exclusive) then
      abortWith st tid txn .lock_shared_on_read_uncommitted
    else if txn.isolation_level = .read_uncommitted ∧ txn.state = .shrinking then
      abortWith st tid txn .lock_on_shrinking
    else
      lockTableFound st txn tid mode oid
        ((lookupA st.table_lock_map oid).getD LockRequestQueue.empty)

def addRowLock (txn : Transaction) (mode : LockMode) (oid rid : Int) : Transaction :=
  match mode with
  | .shared =>
    { txn with shared_row_locks :=
        insertA txn.shared_row_locks oid ((lookupA txn.shared_row_locks oid).getD [] ++ [rid]) }
  | .exclusive =>
    { txn with exclusive_row_locks :=
        insertA txn.exclusive_row_locks oid ((lookupA txn.exclusive_row_locks oid).getD [] ++ [rid]) }
  | _ => txn

def tryAcquireRow (st : LMState) (txn : Transaction) (tid : Int) (mode : LockMode)
    (oid rid : Int) (q : LockRequestQueue) : LockOutcome × LMState :=
  match grantRowLock
      { q with request_queue :=
          q.request_queue ++ [⟨tid, mode, oid, rid, false⟩] } tid oid mode with
  | (true, q2) =>
    (.granted,
      { setTxn st tid (addRowLock txn mode oid rid) with
          row_lock_map := insertA st.row_lock_map rid q2 })
  | (false, q2) =>
    (.blocked,
      { setTxn st tid txn with row_lock_map := insertA st.row_lock_map rid q2 })

/-- The queued phase of `LockRow`.  Note that, unlike `LockTable`, the
upgrade path performs no `upgrading_ != INVALID_TXN_ID` check: it
unconditionally overwrites `upgrading_` with this transaction's id. -/
def lockRowFound (st : LMState) (txn : Transaction) (tid : Int) (mode : LockMode)
    (oid rid : Int) (q : LockRequestQueue) : LockOutcome × LMState :=
  match q.request_queue.find? (fun r => r.txn_id = tid ∧ r.oid = oid) with
  | some req =>
    if ¬req.granted then (.failed, st)
    else if req.lock_mode = mode then (.granted, st)
    else if mode = .shared then abortWith st tid txn .incompatible_upgrade
    else
      tryAcquireRow st txn tid mode oid rid
        { q with request_queue := q.request_queue.erase req, upgrading := req.txn_id }
  | none => tryAcquireRow st txn tid mode oid rid q

/-- `LockManager::LockRow`. -/
def lockRow (st : LMState) (tid : Int) (mode : LockMode) (oid rid : Int) :
    LockOutcome × LMState :=
  match lookupA st.txns tid with
  | none => (.invalid, st)
  | some txn =>
    if txn.state = .aborted ∨ txn.state = .committed then (.invalid, st)
    else if mode ≠ .exclusive ∧ mode ≠ .shared then
      abortWith st tid txn .attempted_intention_lock_on_row
    else if mode = .exclusive ∧ ¬(oid ∈ txn.exclusive_table_locks ∨
        oid ∈ txn.intention_exclusive_table_locks ∨
        oid ∈ txn.shared_intention_exclusive_table_locks) then
      abortWith st tid txn .table_lock_not_present
    else if txn.state = .shrinking ∧
        ¬(txn.isolation_level = .read_committed ∧ mode = .shared) then
      abortWith st tid txn .lock_on_shrinking
    else
      lockRowFound st txn tid mode oid rid
        ((lookupA st.row_lock_map rid).getD LockRequestQueue.empty)

/-- `LockManager::UnlockTable`. -/
def unlockTable (st : LMState) (tid : Int) (oid : Int) : LockOutcome × LMState :=
  match lookupA st.txns tid with
  | none => (.invalid, st)
  | some txn =>
    if ¬((lookupA txn.exclusive_row_locks oid).getD [] = [] ∧
        (lookupA txn.shared_row_locks oid).getD [] = []) then
      abortWith st tid txn .table_unlocked_before_unlocking_rows
    else
      match lookupA st.table_lock_map oid with
      | none => abortWith st tid txn .attempted_unlock_but_no_lock_held
      | some q =>
        match q.request_queue.find? (fun r => r.txn_id = tid) with
        | none => abortWith st tid txn .attempted_unlock_but_no_lock_held
        | some req =>
          (.granted,
            { setTxn st tid
                (eraseTableLock
                  (if txn.state = .growing ∧
                      ((txn.isolation_level = .repeatable_read ∧
                        req.lock_mode = .shared) ∨ req.lock_mode = .exclusive) then
                    { txn with state := .shrinking }
                  else txn) req.lock_mode oid) with
              table_lock_map := insertA st.table_lock_map oid
                { q with request_queue := q.request_queue.erase req } })

def eraseRowLock (txn : Transaction) (mode : LockMode) (oid rid : Int) : Transaction :=
  match mode with
  | .shared =>
    match lookupA txn.shared_row_locks oid with
    | some l =>
      { txn with shared_row_locks := insertA txn.shared_row_locks oid (l.filter (· ≠ rid)) }
    | none => txn
  | .exclusive =>
    match lookupA txn.exclusive_row_locks oid with
    | some l =>
      { txn with exclusive_row_locks :=
          insertA txn.exclusive_row_locks oid (l.filter (· ≠ rid)) }
    | none => txn
  | _ => txn

/-- `LockManager::UnlockRow`. -/
def unlockRow (st : LMState) (tid : Int) (oid rid : Int) : LockOutcome × LMState :=
  match lookupA st.txns tid with
  | none => (.invalid, st)
  | some txn =>
    match lookupA st.row_lock_map rid with
    | none => abortWith st tid txn .attempted_unlock_but_no_lock_held
    | some q =>
      match q.request_queue.find? (fun r => r.txn_id = tid ∧ r.oid = oid) with
      | none => abortWith st tid txn .attempted_unlock_but_no_lock_held
      | some req =>
        (.granted,
          { setTxn st tid
              (eraseRowLock
                (if txn.state = .growing ∧
                    (txn.isolation_level = .repeatable_read ∨
                      (txn.isolation_level = .read_committed ∧
                        req.lock_mode = .exclusive)) then
                  { txn with state := .shrinking }
                else txn) req.lock_mode oid rid) with
            row_lock_map := insertA st.row_lock_map rid
              { q with request_queue := q.request_queue.erase req } })

/-- Current state of a transaction. -/
def txnStateOf (st : LMState) (tid : Int) : Option TransactionState :=
  (lookupA st.txns tid).map (fun t => t.state)

/-! ### Upgrade conflicts (C5) and two-phase transitions (C8) -/

theorem tryAcquireRow_outcome (st : LMState) (txn : Transaction) (tid : Int)
    (mode : LockMode) (oid rid : Int) (q : LockRequestQueue) :
    (tryAcquireRow st txn tid mode oid rid q).1 = .granted ∨
    (tryAcquireRow st txn tid mode oid rid q).1 = .blocked := by
  unfold tryAcquireRow
  rcases hg : grantRowLock
      { q with request_queue := q.request_queue ++ [⟨tid, mode, oid, rid, false⟩] }
      tid oid mode with ⟨b, q2⟩
  cases b with
  | true => left; rfl
  | false => right; rfl

theorem lockRowFound_no_upgrade_conflict (st : LMState) (txn : Transaction)
    (tid : Int) (mode : LockMode) (oid rid : Int) (q : LockRequestQueue) :
    (lockRowFound st txn tid mode oid rid q).1 ≠ .aborted .upgrade_conflict := by
  cases hfind : q.request_queue.find? (fun r => r.txn_id = tid ∧ r.oid = oid) with
  | some req =>
    have hun : lockRowFound st txn tid mode oid rid q =
        (if ¬req.granted then (LockOutcome.failed, st)
         else if req.lock_mode = mode then (LockOutcome.granted, st)
         else if mode = LockMode.shared then abortWith st tid txn .incompatible_upgrade
         else tryAcquireRow st txn tid mode oid rid
           { request_queue := q.request_queue.erase req, upgrading := req.txn_id }) := by
      unfold lockRowFound
      rw [hfind]
    rw [hun]
    by_cases hgr : ¬req.granted
    · rw [if_pos hgr]
      intro h
      cases h
    · rw [if_neg hgr]
      by_cases hsame : req.lock_mode = mode
      · rw [if_pos hsame]
        intro h
        cases h
      · rw [if_neg hsame]
        by_cases hsh : mode = .shared
        · rw [if_pos hsh]
          intro h
          cases h
        · rw [if_neg hsh]
          rcases tryAcquireRow_outcome st txn tid mode oid rid
            { request_queue := q.request_queue.erase req,
              upgrading := req.txn_id } with h | h
          · rw [h]
            intro h2
            cases h2
          · rw [h]
            intro h2
            cases h2
  | none =>
    have hun : lockRowFound st txn tid mode oid rid q =
        tryAcquireRow st txn tid mode oid rid q := by
      unfold lockRowFound
      rw [hfind]
    rw [hun]
    rcases tryAcquireRow_outcome st txn tid mode oid rid q with h | h
    · rw [h]
      intro h2
      cases h2
    · rw [h]
      intro h2
      cases h2

/-- C5 (amended).  When a transaction holding a granted table lock
requests a different, legally upgradable mode while another transaction
is already recorded as the queue's upgrader, `lock_table` fails with
`upgrade_conflict` and the transaction is aborted.  `lock_row`, by
contrast, performs no such check: it never returns `upgrade_conflict`
on any input — a concurrent row-lock upgrade simply overwrites the
queue's `upgrading` field (see the counterexample). -/
theorem C5_upgrade_conflict :
    (∀ (st : LMState) (tid : Int) (mode : LockMode) (oid : Int) (txn : Transaction)
        (q : LockRequestQueue) (req : LockRequest),
      lookupA st.txns tid = some txn →
      txn.state = .growing →
      ¬(txn.isolation_level = .read_uncommitted ∧
        (mode = .shared ∨ mode = .intention_shared ∨
          mode = .shared_intention_exclusive)) →
      lookupA st.table_lock_map oid = some q →
      q.request_queue.find? (fun r => r.txn_id = tid) = some req →
      req.granted = true →
      req.lock_mode ≠ mode →
      illegalUpgrade req.lock_mode mode = false →
      q.upgrading ≠ INVALID_TXN_ID →
      (lockTable st tid mode oid).1 = .aborted .upgrade_conflict ∧
      txnStateOf (lockTable st tid mode oid).2 tid = some .aborted) ∧
    (∀ (st : LMState) (tid : Int) (mode : LockMode) (oid rid : Int),
      (lockRow st tid mode oid rid).1 ≠ .aborted .upgrade_conflict) := by
  constructor
  · intro st tid mode oid txn q req htxn hstate hru hq hfind hgr hmode _ hupg
    have h0 : lockTable st tid mode oid =
        (if txn.state = .committed ∨ txn.state = .aborted then (LockOutcome.invalid, st)
         else if txn.state = .shrinking ∧ txn.isolation_level = .repeatable_read then
           abortWith st tid txn .lock_on_shrinking
         else if txn.state = .shrinking ∧ txn.isolation_level = .read_committed ∧
             mode ≠ .shared ∧ mode ≠ .intention_shared then
           abortWith st tid txn .lock_on_shrinking
         else if txn.isolation_level = .read_uncommitted ∧
             (mode = .shared ∨ mode = .intention_shared ∨
               mode = .shared_intention_exclusive) then
           abortWith st tid txn .lock_shared_on_read_uncommitted
         else if txn.isolation_level = .read_uncommitted ∧ txn.state = .shrinking then
           abortWith st tid txn .lock_on_shrinking
         else lockTableFound st txn tid mode oid
           ((lookupA st.table_lock_map oid).getD LockRequestQueue.empty)) := by
      unfold lockTable
      rw [htxn]
    have h1 : lockTable st tid mode oid = lockTableFound st txn tid mode oid q := by
      rw [h0]
      rw [if_neg (by rw [hstate]; decide)]
      rw [if_neg (by rw [hstate]; simp)]
      rw [if_neg (by rw [hstate]; simp)]
      rw [if_neg hru]
      rw [if_neg (by rw [hstate]; simp)]
      rw [hq]
      rfl
    have h15 : lockTableFound st txn tid mode oid q =
        (if ¬req.granted then abortWith st tid txn .incompatible_upgrade
         else if req.lock_mode = mode then (LockOutcome.granted, st)
         else if q.upgrading ≠ INVALID_TXN_ID then abortWith st tid txn .upgrade_conflict
         else if illegalUpgrade req.lock_mode mode then
           abortWith st tid txn .incompatible_upgrade
         else tryAcquireTable st (eraseTableLock txn req.lock_mode oid) tid mode oid
           { request_queue := q.request_queue.erase req, upgrading := tid }) := by
      unfold lockTableFound
      rw [hfind]
    have h2 : lockTableFound st txn tid mode oid q
        = abortWith st tid txn .upgrade_conflict := by
      rw [h15]
      rw [if_neg (by simp [hgr])]
      rw [if_neg hmode]
      rw [if_pos hupg]
    rw [h1, h2]
    refine ⟨rfl, ?_⟩
    simp [abortWith, setTxn, txnStateOf, lookupA_insertA_self]
  · intro st tid mode oid rid
    cases htxn : lookupA st.txns tid with
    | none =>
      have hun : lockRow st tid mode oid rid = (LockOutcome.invalid, st) := by
        unfold lockRow
        rw [htxn]
      rw [hun]
      intro h
      cases h
    | some txn =>
      have hun : lockRow st tid mode oid rid =
          (if txn.state = .aborted ∨ txn.state = .committed then (LockOutcome.invalid, st)
           else if mode ≠ .exclusive ∧ mode ≠ .shared then
             abortWith st tid txn .attempted_intention_lock_on_row
           else if mode = .exclusive ∧ ¬(oid ∈ txn.exclusive_table_locks ∨
               oid ∈ txn.intention_exclusive_table_locks ∨
               oid ∈ txn.shared_intention_exclusive_table_locks) then
             abortWith st tid txn .table_lock_not_present
           else if txn.state = .shrinking ∧
               ¬(txn.isolation_level = .read_committed ∧ mode = .shared) then
             abortWith st tid txn .lock_on_shrinking
           else lockRowFound st txn tid mode oid rid
             ((lookupA st.row_lock_map rid).getD LockRequestQueue.empty)) := by
        unfold lockRow
        rw [htxn]
      rw [hun]
      by_cases h1 : txn.state = .aborted ∨ txn.state = .committed
      · rw [if_pos h1]
        intro h
        cases h
      · rw [if_neg h1]
        by_cases h2 : mode ≠ .exclusive ∧ mode ≠ .shared
        · rw [if_pos h2]
          intro h
          cases h
        · rw [if_neg h2]
          by_cases h3 : mode = .exclusive ∧ ¬(oid ∈ txn.exclusive_table_locks ∨
              oid ∈ txn.intention_exclusive_table_locks ∨
              oid ∈ txn.shared_intention_exclusive_table_locks)
          · rw [if_pos h3]
            intro h
            cases h
          · rw [if_neg h3]
            by_cases h4 : txn.state = .shrinking ∧
                ¬(txn.isolation_level = .read_committed ∧ mode = .shared)
            · rw [if_pos h4]
              intro h
              cases h
            · rw [if_neg h4]
              exact lockRowFound_no_upgrade_conflict st txn tid mode oid rid _

/-- The two-transaction table scenario: T1 and T2 (repeatable read)
both hold S on table 5, and T1 has begun an upgrade to X. -/
def c5Table0 : LMState :=
  { txns := [(1, Transaction.fresh .repeatable_read),
             (2, Transaction.fresh .repeatable_read)],
    table_lock_map := [], row_lock_map := [] }

def c5Table3 : LMState :=
  (lockTable (lockTable (lockTable c5Table0 1 .shared 5).2 2 .shared 5).2
    1 .exclusive 5).2

/-- Witness for C5: in the literal scenario, T2's X request on table 5
receives `upgrade_conflict` and T2 is aborted. -/
theorem C5_witness :
    (lockTable c5Table3 2 .exclusive 5).1 = .aborted .upgrade_conflict ∧
    txnStateOf (lockTable c5Table3 2 .exclusive 5).2 2 = some .aborted :=
  C5_upgrade_conflict.1 c5Table3 2 .exclusive 5
    ((lookupA c5Table3.txns 2).getD (Transaction.fresh .repeatable_read))
    ((lookupA c5Table3.table_lock_map 5).getD LockRequestQueue.empty)
    ((((lookupA c5Table3.table_lock_map 5).getD LockRequestQueue.empty).request_queue.find?
        (fun r => r.txn_id = 2)).getD ⟨0, .shared, 0, 0, false⟩)
    (by decide) (by decide) (by decide) (by decide) (by decide) (by decide)
    (by decide) (by decide) (by decide)

/-- The row analogue of the scenario: T1 and T2 hold S on row 7 of
table 5 (under IX table locks), and T1 has begun an upgrade to X,
making it the queue's recorded upgrader. -/
def c5Row5 : LMState :=
  (lockRow (lockRow (lockRow
      (lockTable (lockTable c5Table0 2 .intention_exclusive 5).2
        1 .intention_exclusive 5).2
      1 .shared 5 7).2 2 .shared 5 7).2 1 .exclusive 5 7).2

/-- Counterexample to C5 as stated: with T1 recorded as the upgrader of
row 7's queue, T2's legally-upgradable X request does not receive
`upgrade_conflict` — it is granted outright (stealing the upgrade). -/
theorem C5_counterexample :
    (lookupA c5Row5.row_lock_map 7).map (fun q => q.upgrading) = some 1 ∧
    (1 : Int) ≠ INVALID_TXN_ID ∧
    (lockRow c5Row5 2 .exclusive 5 7).1 = .granted ∧
    LockOutcome.granted ≠ .aborted .upgrade_conflict := by
  refine ⟨by decide, by decide, by decide, by decide⟩

theorem eraseTableLock_state (t : Transaction) (m : LockMode) (oid : Int) :
    (eraseTableLock t m oid).state = t.state := by
  cases m <;> rfl

theorem eraseRowLock_state (t : Transaction) (m : LockMode) (oid rid : Int) :
    (eraseRowLock t m oid rid).state = t.state := by
  cases m with
  | shared =>
    simp only [eraseRowLock]
    cases lookupA t.shared_row_locks oid with
    | none => rfl
    | some l => rfl
  | exclusive =>
    simp only [eraseRowLock]
    cases lookupA t.exclusive_row_locks oid with
    | none => rfl
    | some l => rfl
  | intention_shared => rfl
  | intention_exclusive => rfl
  | shared_intention_exclusive => rfl

/-- C8 (amended).  A successful unlock of a GROWING transaction moves it
to SHRINKING exactly when: for `unlock_table`, the released mode is S at
repeatable read, or X at any level; for `unlock_row`, the isolation
level is repeatable read (any released mode), or the released mode is X
at read committed.  At read uncommitted, `unlock_row` never changes the
state — releasing a row X lock leaves the transaction GROWING, contrary
to the spec (see the counterexample). -/
theorem C8_two_phase :
    (∀ (st : LMState) (tid oid : Int) (txn : Transaction)
        (q : LockRequestQueue) (req : LockRequest),
      lookupA st.txns tid = some txn →
      txn.state = .growing →
      (lookupA txn.exclusive_row_locks oid).getD [] = [] →
      (lookupA txn.shared_row_locks oid).getD [] = [] →
      lookupA st.table_lock_map oid = some q →
      q.request_queue.find? (fun r => r.txn_id = tid) = some req →
      (unlockTable st tid oid).1 = .granted ∧
      txnStateOf (unlockTable st tid oid).2 tid =
        some (if (txn.isolation_level = .repeatable_read ∧ req.lock_mode = .shared) ∨
                req.lock_mode = .exclusive
              then .shrinking else .growing)) ∧
    (∀ (st : LMState) (tid oid rid : Int) (txn : Transaction)
        (q : LockRequestQueue) (req : LockRequest),
      lookupA st.txns tid = some txn →
      txn.state = .growing →
      lookupA st.row_lock_map rid = some q →
      q.request_queue.find? (fun r => r.txn_id = tid ∧ r.oid = oid) = some req →
      (unlockRow st tid oid rid).1 = .granted ∧
      txnStateOf (unlockRow st tid oid rid).2 tid =
        some (if txn.isolation_level = .repeatable_read ∨
                (txn.isolation_level = .read_committed ∧ req.lock_mode = .exclusive)
              then .shrinking else .growing)) := by
  constructor
  · intro st tid oid txn q req htxn hstate hxr hsr hq hfind
    have hun : unlockTable st tid oid =
        (.granted,
          { setTxn st tid
              (eraseTableLock
                (if txn.state = .growing ∧
                    ((txn.isolation_level = .repeatable_read ∧
                      req.lock_mode = .shared) ∨ req.lock_mode = .exclusive) then
                  { txn with state := .shrinking }
                else txn) req.lock_mode oid) with
            table_lock_map := insertA st.table_lock_map oid
              { q with request_queue := q.request_queue.erase req } }) := by
      unfold unlockTable
      simp only [htxn, hq, hfind]
      rw [if_neg (by simp [hxr, hsr])]
    rw [hun]
    refine ⟨rfl, ?_⟩
    simp only [txnStateOf, setTxn]
    rw [lookupA_insertA_self]
    simp only [Option.map_some']
    rw [eraseTableLock_state]
    by_cases hc : (txn.isolation_level = .repeatable_read ∧ req.lock_mode = .shared) ∨
        req.lock_mode = .exclusive
    · rw [if_pos ⟨hstate, hc⟩, if_pos hc]
    · rw [if_neg (fun h => hc h.2), if_neg hc, hstate]
  · intro st tid oid rid txn q req htxn hstate hq hfind
    have hun : unlockRow st tid oid rid =
        (.granted,
          { setTxn st tid
              (eraseRowLock
                (if txn.state = .growing ∧
                    (txn.isolation_level = .repeatable_read ∨
                      (txn.isolation_level = .read_committed ∧
                        req.lock_mode = .exclusive)) then
                  { txn with state := .shrinking }
                else txn) req.lock_mode oid rid) with
            row_lock_map := insertA st.row_lock_map rid
              { q with request_queue := q.request_queue.erase req } }) := by
      unfold unlockRow
      simp only [htxn, hq, hfind]
    rw [hun]
    refine ⟨rfl, ?_⟩
    simp only [txnStateOf, setTxn]
    rw [lookupA_insertA_self]
    simp only [Option.map_some']
    rw [eraseRowLock_state]
    by_cases hc : txn.isolation_level = .repeatable_read ∨
        (txn.isolation_level = .read_committed ∧ req.lock_mode = .exclusive)
    · rw [if_pos ⟨hstate, hc⟩, if_pos hc]
    · rw [if_neg (fun h => hc h.2), if_neg hc, hstate]

/-- T1 (repeatable read) holds a granted S lock on table 5. -/
def c8Table1 : LMState := (lockTable c5Table0 1 .shared 5).2

/-- T1 (repeatable read) holds IS on table 5 and a granted S lock on
row 7 of table 5. -/
def c8Row2 : LMState :=
  (lockRow (lockTable c5Table0 1 .intention_shared 5).2 1 .shared 5 7).2

/-- Witness for C8: at repeatable read, releasing the table S lock and
releasing the row S lock both move the transaction to SHRINKING. -/
theorem C8_witness :
    ((unlockTable c8Table1 1 5).1 = .granted ∧
      txnStateOf (unlockTable c8Table1 1 5).2 1 = some .shrinking) ∧
    ((unlockRow c8Row2 1 5 7).1 = .granted ∧
      txnStateOf (unlockRow c8Row2 1 5 7).2 1 = some .shrinking) := by
  refine ⟨?_, ?_⟩
  · have h := C8_two_phase.1 c8Table1 1 5
      ((lookupA c8Table1.txns 1).getD (Transaction.fresh .repeatable_read))
      ((lookupA c8Table1.table_lock_map 5).getD LockRequestQueue.empty)
      ((((lookupA c8Table1.table_lock_map 5).getD LockRequestQueue.empty).request_queue.find?
          (fun r : LockRequest => r.txn_id = 1)).getD ⟨0, .shared, 0, 0, false⟩)
      (by decide) (by decide) (by decide) (by decide) (by decide) (by decide)
    exact ⟨h.1, h.2.trans (by decide)⟩
  · have h := C8_two_phase.2 c8Row2 1 5 7
      ((lookupA c8Row2.txns 1).getD (Transaction.fresh .repeatable_read))
      ((lookupA c8Row2.row_lock_map 7).getD LockRequestQueue.empty)
      ((((lookupA c8Row2.row_lock_map 7).getD LockRequestQueue.empty).request_queue.find?
          (fun r : LockRequest => r.txn_id = 1 ∧ r.oid = 5)).getD ⟨0, .shared, 0, 0, false⟩)
      (by decide) (by decide) (by decide) (by decide)
    exact ⟨h.1, h.2.trans (by decide)⟩

/-- T1 (read uncommitted) holds IX on table 5 and a granted X lock on
row 7 of table 5. -/
def c8RU : LMState :=
  (lockRow (lockTable
    { txns := [(1, Transaction.fresh .read_uncommitted)],
      table_lock_map := [], row_lock_map := [] }
    1 .intention_exclusive 5).2 1 .exclusive 5 7).2

/-- Counterexample to C8 as stated: at read uncommitted, a successful
`unlock_row` releasing an X lock leaves the transaction GROWING rather
than moving it to SHRINKING. -/
theorem C8_counterexample :
    (lookupA c8RU.row_lock_map 7).map
        (fun q => q.request_queue.map (fun r => (r.txn_id, r.lock_mode, r.granted)))
      = some [(1, .exclusive, true)] ∧
    txnStateOf c8RU 1 = some .growing ∧
    (unlockRow c8RU 1 5 7).1 = .granted ∧
    txnStateOf (unlockRow c8RU 1 5 7).2 1 = some .growing ∧
    TransactionState.growing ≠ .shrinking := by
  refine ⟨by decide, by decide, by decide, by decide, by decide⟩

/-! ## B+ tree (src/storage/index/b_plus_tree.cpp and page classes)

The tree stores its pages through the buffer pool; here the pool is
abstracted to a total page store `pages : Int → Node` (fetch = read,
commit after each mutating statement = the shared frame both pointers
alias in the C++), `NewPage` allocates the next page id with zeroed
memory, `DeletePage` zeroes the slot (page ids are never reused, as the
disk manager allocates monotonically).  Pin counts and the replacer do
not influence any of the tree-level claims.  A `Node` carries the
physical key/value array as a total function `Int → Int × Int`: reads
beyond `size` return whatever was last written there (the stale in-page
bytes the C++ reads in the same situation), and a fresh page reads
zeroes.  Keys and values are `Int` (`GenericKey` under an integer
comparator, and page ids/RIDs respectively). -/

structure Node where
  isLeaf : Bool
  size : Int
  maxSize : Int
  parent : Int
  pageId : Int
  next : Int
  array : Int → Int × Int

def Node.empty : Node :=
  { isLeaf := false, size := 0, maxSize := 0, parent := 0, pageId := 0, next := 0,
    array := fun _ => (0, 0) }

/-- Pointwise update of an array/store. -/
def updA {α : Type} (f : Int → α) (i : Int) (v : α) : Int → α :=
  fun j => if j = i then v else f j

/-- `SetKeyAt`: `array_[index].first = key`. -/
def setKeyAt (n : Node) (i : Int) (k : Int) : Node :=
  { n with array := updA n.array i (k, (n.array i).2) }

/-- `SetValueAt`: `array_[index].second = value`. -/
def setValueAt (n : Node) (i : Int) (v : Int) : Node :=
  { n with array := updA n.array i ((n.array i).1, v) }

/-- `BPlusTreeLeafPage::Init` on a freshly fetched frame (metadata only;
the frame's memory was zeroed by the pool on allocation). -/
def Node.initLeaf (n : Node) (pid parent maxSize : Int) : Node :=
  { n with isLeaf := true, size := 0, pageId := pid, parent := parent,
           maxSize := maxSize, next := INVALID_PAGE_ID }

/-- `BPlusTreeInternalPage::Init` (sets size to 1). -/
def Node.initInternal (n : Node) (pid parent maxSize : Int) : Node :=
  { n with isLeaf := false, size := 1, pageId := pid, parent := parent,
           maxSize := maxSize }

/-- Modelled from the spec: `GetMinSize` lives in the missing
`b_plus_tree_page.cpp`; the spec fixes it as ⌈max/2⌉ for internal pages
and ⌈(max−1)/2⌉ for leaves, written here with integer division
(⌈(m−1)/2⌉ = ⌊m/2⌋ and ⌈m/2⌉ = ⌊(m+1)/2⌋ for m ≥ 0). -/
def Node.getMinSize (n : Node) : Int :=
  if n.isLeaf then n.maxSize / 2 else (n.maxSize + 1) / 2

/-- The binary-search loop of `B_PLUS_TREE_LEAF_PAGE_TYPE::FindKey`
(`while (l <= r) ...; return r`), with fuel bounding the iterations
(the interval shrinks every round, so `size + 1` rounds suffice). -/
def leafFindKeyLoop (n : Node) (key : Int) (l r : Int) : Nat → Int
  | 0 => r
  | c + 1 =>
    if l ≤ r then
      let mid := l + (r - l) / 2
      if (n.array mid).1 > key then leafFindKeyLoop n key l (mid - 1) c
      else leafFindKeyLoop n key (mid + 1) r c
    else r

/-- `B_PLUS_TREE_LEAF_PAGE_TYPE::FindKey`. -/
def leafFindKey (n : Node) (key : Int) : Int :=
  leafFindKeyLoop n key 0 (n.size - 1) (n.size.toNat + 1)

/-- `array_[k + 1] = array_[k]` for `k = start, start − 1, …`
(`cnt` steps): the right-shift loop of the push routines. -/
def copyDown (a : Int → Int × Int) (k : Int) : Nat → (Int → Int × Int)
  | 0 => a
  | c + 1 => copyDown (updA a (k + 1) (a k)) (k - 1) c

/-- `array_[j - 1] = array_[j]` for `j = start, start + 1, …`
(`cnt` steps): the left-shift loop of the delete routines. -/
def copyUp (a : Int → Int × Int) (j : Int) : Nat → (Int → Int × Int)
  | 0 => a
  | c + 1 => copyUp (updA a (j - 1) (a j)) (j + 1) c

/-- `B_PLUS_TREE_LEAF_PAGE_TYPE::PushKey` (duplicate keys rejected via
the binary search; shift then write at `i + 1`). -/
def leafPushKey (n : Node) (key val : Int) : Bool × Node :=
  let size := n.size
  let i := leafFindKey n key
  if i > -1 ∧ (n.array i).1 = key then (false, n)
  else
    let a2 := copyDown n.array (size - 1) (size - 1 - i).toNat
    (true, { n with size := n.size + 1, array := updA a2 (i + 1) (key, val) })

/-- `B_PLUS_TREE_LEAF_PAGE_TYPE::DeleteKey`: returns the removed index
(or −1) together with the updated page. -/
def leafDeleteKey (n : Node) (key : Int) : Int × Node :=
  let size := n.size
  let i := leafFindKey n key
  if i = -1 ∨ (n.array i).1 ≠ key then (-1, n)
  else
    (i, { n with size := n.size - 1, array := copyUp n.array (i + 1) (size - (i + 1)).toNat })

/-- The linear scan of `B_PLUS_TREE_INTERNAL_PAGE_TYPE::PushKey`
(`i` from 1 while `i < size`): `none` when an equal key is found
(the push returns without modifying the page). -/
def internalScan (n : Node) (key : Int) (i : Int) : Nat → Option Int
  | 0 => some i
  | c + 1 =>
    if (n.array i).1 = key then none
    else if (n.array i).1 > key then some i
    else internalScan n key (i + 1) c

/-- `B_PLUS_TREE_INTERNAL_PAGE_TYPE::PushKey`. -/
def internalPushKey (n : Node) (key val : Int) : Node :=
  let size := n.size
  match internalScan n key 1 (size - 1).toNat with
  | none => n
  | some i =>
    let a2 := copyDown n.array (size - 1) (size - i).toNat
    { n with size := n.size + 1, array := updA a2 i (key, val) }

/-- The value-search loop shared by `DeleteWithValue` and the `vi`
scans of `Remove`/`RemoveInParent` (`i` from `start` while `i < size`,
stopping at the first index whose value matches). -/
def internalFindValue (n : Node) (v : Int) (i : Int) : Nat → Int
  | 0 => i
  | c + 1 => if (n.array i).2 = v then i else internalFindValue n v (i + 1) c

/-- `B_PLUS_TREE_INTERNAL_PAGE_TYPE::DeleteWithValue`. -/
def internalDeleteWithValue (n : Node) (v : Int) : Node :=
  let size := n.size
  let i := internalFindValue n v 0 size.toNat
  if i ≥ size then n
  else { n with size := n.size - 1, array := copyUp n.array (i + 1) (size - (i + 1)).toNat }

/-- `B_PLUS_TREE_INTERNAL_PAGE_TYPE::PushForward` (drops entry 1 by
shifting entries 2… left; entry 0's value is untouched). -/
def internalPushForward (n : Node) : Node :=
  { n with size := n.size - 1, array := copyUp n.array 2 (n.size - 2).toNat }

structure TreeState where
  root_page_id : Int
  leaf_max_size : Int
  internal_max_size : Int
  nextPage : Int
  pages : Int → Node
  headerRecord : Option Int

/-- A fresh tree: `root_page_id_ = INVALID_PAGE_ID`, no header record
for this index yet.  Page ids are allocated from 1 (page 0 is the
header page, which the model keeps in `headerRecord`). -/
def TreeState.init (lm im : Int) : TreeState :=
  { root_page_id := INVALID_PAGE_ID, leaf_max_size := lm, internal_max_size := im,
    nextPage := 1, pages := fun _ => Node.empty, headerRecord := none }

def setPageT (st : TreeState) (pid : Int) (n : Node) : TreeState :=
  { st with pages := updA st.pages pid n }

/-- `BufferPoolManager::NewPage` as the tree sees it: a fresh, zeroed
page under a newly allocated id. -/
def newPageT (st : TreeState) : TreeState × Int :=
  ({ st with nextPage := st.nextPage + 1,
             pages := updA st.pages st.nextPage Node.empty }, st.nextPage)

/-- `BufferPoolManager::DeletePage`: the slot reads zeroed afterwards
(and its id is never allocated again). -/
def delPageT (st : TreeState) (pid : Int) : TreeState :=
  { st with pages := updA st.pages pid Node.empty }

/-- Modelled from the spec: `UpdateRootPageId` writes the header page
(`header_page.cpp` accessors are absent from the sources).  The spec's
header page maps index names to root page ids; with a single index the
record is an `Option Int`.  `InsertRecord` creates the record,
`UpdateRecord` overwrites it when present and does nothing otherwise. -/
def updateRootPageId (st : TreeState) (insert_record : Bool) : TreeState :=
  if insert_record then { st with headerRecord := some st.root_page_id }
  else
    match st.headerRecord with
    | some _ => { st with headerRecord := some st.root_page_id }
    | none => st

/-- The child-selection scan inlined in `FindLeaf` (`ids` from 1 while
`ids < size`, stopping at the first key greater than the target). -/
def findLeafScan (n : Node) (key : Int) (i : Int) : Nat → Int
  | 0 => i
  | c + 1 => if (n.array i).1 > key then i else findLeafScan n key (i + 1) c

/-- The descent loop of `BPLUSTREE_TYPE::FindLeaf`; fuel is the number
of allocated pages, which bounds the height of any well-formed tree. -/
def findLeafLoop (st : TreeState) (key : Int) (pid : Int) : Nat → Int
  | 0 => pid
  | c + 1 =>
    let n := st.pages pid
    if n.isLeaf then pid
    else
      let ids := findLeafScan n key 1 (n.size - 1).toNat
      findLeafLoop st key (n.array (ids - 1)).2 c

/-- `BPLUSTREE_TYPE::FindLeaf`, returning the leaf's page id. -/
def findLeaf (st : TreeState) (key : Int) : Int :=
  findLeafLoop st key st.root_page_id (st.nextPage.toNat + 1)

/-- The copy loop of the leaf split in `Insert`
(`rightleaf->PushKey(leaf->KeyAt(i), leaf->ValueAt(i))` for
`i = mid … max−1`). -/
def splitCopyS (st : TreeState) (lid rid : Int) (i : Int) : Nat → TreeState
  | 0 => st
  | c + 1 =>
    let e := (st.pages lid).array i
    splitCopyS (setPageT st rid (leafPushKey (st.pages rid) e.1 e.2).2) lid rid (i + 1) c

/-- The `tmp_kvs` construction of `InsertInParent`'s full-parent branch:
copies entries 1… of the full parent, splicing `(key, rightId)` right
after the entry whose value is `leftId`.  The array is zero-initialised
(`memset`), so unwritten slots read `(0, 0)`. -/
def buildTmp (curr : Node) (leftId rightId key : Int) (i k : Int)
    (tmp : Int → Int × Int) : Nat → (Int → Int × Int)
  | 0 => tmp
  | c + 1 =>
    let tmp1 := updA tmp k ((curr.array i).1, (curr.array i).2)
    if (curr.array i).2 = leftId then
      buildTmp curr leftId rightId key (i + 1) (k + 2) (updA tmp1 (k + 1) (key, rightId)) c
    else buildTmp curr leftId rightId key (i + 1) (k + 1) tmp1 c

/-- `SetKeyAt(i, tmp[i].first); SetValueAt(i, tmp[i].second)` for
`i = start …` (`cnt` steps): rewriting the left half of a split
internal page. -/
def applyTmp (nd : Node) (tmp : Int → Int × Int) (i : Int) : Nat → Node
  | 0 => nd
  | c + 1 => applyTmp (setValueAt (setKeyAt nd i (tmp i).1) i (tmp i).2) tmp (i + 1) c

/-- `right_internal->PushKey(tmp_kvs[i])` for `i = start …`. -/
def pushTmp (nd : Node) (tmp : Int → Int × Int) (i : Int) : Nat → Node
  | 0 => nd
  | c + 1 => pushTmp (internalPushKey nd (tmp i).1 (tmp i).2) tmp (i + 1) c

/-- Re-parent the children listed in `nd.array start…` to `toPid`
(the child-fixing loop after an internal split). -/
def reparentChildren (st : TreeState) (nd : Node) (toPid : Int) (i : Int) :
    Nat → TreeState
  | 0 => st
  | c + 1 =>
    let cid := (nd.array i).2
    reparentChildren (setPageT st cid { st.pages cid with parent := toPid }) nd toPid
      (i + 1) c

/-- `BPLUSTREE_TYPE::InsertInParent`.  Fuel bounds the recursion up the
tree (the height).  `IsRootPage` is modelled from the spec as
`parent == INVALID_PAGE_ID` (its accessor is in the missing
`b_plus_tree_page.cpp`). -/
def insertInParent (st : TreeState) (leftId rightId key : Int) : Nat → TreeState
  | 0 => st
  | c + 1 =>
    let left := st.pages leftId
    if left.parent = INVALID_PAGE_ID then
      let p := newPageT st
      let st1 := { p.1 with root_page_id := p.2 }
      let st2 := setPageT st1 p.2 ((st1.pages p.2).initInternal p.2 INVALID_PAGE_ID
        st1.internal_max_size)
      let st3 := setPageT st2 p.2 (setValueAt (st2.pages p.2) 0 leftId)
      let st4 := setPageT st3 p.2 (internalPushKey (st3.pages p.2) key rightId)
      let st5 := setPageT st4 leftId { st4.pages leftId with parent := p.2 }
      let st6 := setPageT st5 rightId { st5.pages rightId with parent := p.2 }
      updateRootPageId st6 false
    else
      let currId := left.parent
      let curr := st.pages currId
      if curr.size ≥ curr.maxSize then
        let size := curr.size + 1
        let tmp0 := updA (fun _ => ((0 : Int), (0 : Int))) 0 (0, (curr.array 0).2)
        let tmp := buildTmp curr leftId rightId key 1 1 tmp0 (curr.size - 1).toNat
        let mid := size / 2
        let curr1 := applyTmp (setValueAt curr 0 (tmp 0).2) tmp 1 (mid - 1).toNat
        let st1 := setPageT st currId { curr1 with size := mid }
        let p := newPageT st1
        let st2 := p.1
        let st3 := setPageT st2 p.2 ((st2.pages p.2).initInternal p.2
          (st2.pages currId).parent st2.internal_max_size)
        let st4 := setPageT st3 p.2 (setValueAt (st3.pages p.2) 0 (tmp mid).2)
        let st5 := setPageT st4 p.2 (pushTmp (st4.pages p.2) tmp (mid + 1)
          (size - (mid + 1)).toNat)
        let st6 := reparentChildren st5 (st5.pages p.2) p.2 0 ((st5.pages p.2).size).toNat
        insertInParent st6 currId p.2 (tmp mid).1 c
      else
        setPageT st currId (internalPushKey curr key rightId)

/-- `BPLUSTREE_TYPE::Insert`. -/
def treeInsert (st : TreeState) (key val : Int) : Bool × TreeState :=
  if st.root_page_id = INVALID_PAGE_ID then
    let p := newPageT st
    let st1 := { p.1 with root_page_id := p.2 }
    let st2 := setPageT st1 p.2 ((st1.pages p.2).initLeaf p.2 INVALID_PAGE_ID
      st1.leaf_max_size)
    let st3 := setPageT st2 p.2 (leafPushKey (st2.pages p.2) key val).2
    (true, updateRootPageId st3 true)
  else
    let lid := findLeaf st key
    let r := leafPushKey (st.pages lid) key val
    if ¬r.1 then (false, st)
    else
      let st1 := setPageT st lid r.2
      let lf := st1.pages lid
      if lf.size = lf.maxSize then
        let mid := lf.size / 2
        let p := newPageT st1
        let st2 := p.1
        let st3 := setPageT st2 p.2 ((st2.pages p.2).initLeaf p.2
          (st2.pages lid).parent st2.leaf_max_size)
        let st4 := setPageT st3 p.2 { st3.pages p.2 with next := (st3.pages lid).next }
        let st5 := setPageT st4 lid { st4.pages lid with next := p.2 }
        let st6 := splitCopyS st5 lid p.2 mid ((st5.pages lid).maxSize - mid).toNat
        let st7 := setPageT st6 lid { st6.pages lid with size := mid }
        (true, insertInParent st7 lid p.2 ((st7.pages lid).array mid).1
          (st7.nextPage.toNat + 1))
      else (true, st1)

/-- The merge loop of `Remove` (`dst->PushKey(src->KeyAt(i),
src->ValueAt(i))` for `i = start …`, both leaves read/written through
the store). -/
def mergeLeafLoop (st : TreeState) (dstId srcId : Int) (i : Int) : Nat → TreeState
  | 0 => st
  | c + 1 =>
    let e := (st.pages srcId).array i
    mergeLeafLoop (setPageT st dstId (leafPushKey (st.pages dstId) e.1 e.2).2)
      dstId srcId (i + 1) c

/-- The value-shift loop of `RemoveInParent`'s borrow-from-left branch
(`SetValueAt(i + 1, ValueAt(i))` for `i = size−1 … 0`; only the value
halves move — the keys stay put). -/
def shiftValsRight (nd : Node) (i : Int) : Nat → Node
  | 0 => nd
  | c + 1 => shiftValsRight (setValueAt nd (i + 1) (nd.array i).2) (i - 1) c

/-- The merge loop of `RemoveInParent` (`dst->PushKey(src->KeyAt(i),
src->ValueAt(i))` plus re-parenting `src`'s child `i` to `dst`). -/
def mergeInternalLoop (st : TreeState) (dstId srcId : Int) (i : Int) : Nat → TreeState
  | 0 => st
  | c + 1 =>
    let e := (st.pages srcId).array i
    let st1 := setPageT st dstId (internalPushKey (st.pages dstId) e.1 e.2)
    let st2 := setPageT st1 e.2 { st1.pages e.2 with parent := dstId }
    mergeInternalLoop st2 dstId srcId (i + 1) c

/-- `BPLUSTREE_TYPE::RemoveInParent`.  Fuel bounds the recursion up the
tree. -/
def removeInParent (st : TreeState) (iterId : Int) : Nat → TreeState
  | 0 => st
  | c + 1 =>
    let iter := st.pages iterId
    if iter.parent = INVALID_PAGE_ID then
      if iter.size = 1 then
        let childId := (iter.array 0).2
        let st1 := delPageT st iterId
        let st2 := setPageT st1 childId { st1.pages childId with parent := INVALID_PAGE_ID }
        let st3 := { st2 with root_page_id := childId }
        updateRootPageId st3 false
      else st
    else
      if iter.size - 1 < iter.getMinSize then
        let pid := iter.parent
        let parent := st.pages pid
        let vi := internalFindValue parent iterId 0 parent.size.toNat
        let lbid := (parent.array (vi - 1)).2
        if vi > 0 ∧ (st.pages lbid).size - 1 > (st.pages lbid).getMinSize then
          let size := (st.pages lbid).size
          let st1 := setPageT st iterId
            (shiftValsRight (st.pages iterId) ((st.pages iterId).size - 1)
              ((st.pages iterId).size).toNat)
          let st2 := setPageT st1 iterId
            (setValueAt (st1.pages iterId) 0 ((st1.pages lbid).array (size - 1)).2)
          let cid := ((st2.pages lbid).array (size - 1)).2
          let st3 := setPageT st2 cid { st2.pages cid with parent := iterId }
          let st4 := setPageT st3 iterId
            (setKeyAt (st3.pages iterId) 1 ((st3.pages pid).array vi).1)
          let st5 := setPageT st4 iterId
            { st4.pages iterId with size := (st4.pages iterId).size + 1 }
          let st6 := setPageT st5 pid
            (setKeyAt (st5.pages pid) vi ((st5.pages lbid).array (size - 1)).1)
          setPageT st6 lbid { st6.pages lbid with size := (st6.pages lbid).size - 1 }
        else
          let rbid := (parent.array (vi + 1)).2
          if vi < parent.size - 1 ∧
              (st.pages rbid).size - 1 > (st.pages rbid).getMinSize then
            let st1 := setPageT st iterId
              (internalPushKey (st.pages iterId) ((st.pages pid).array (vi + 1)).1
                ((st.pages rbid).array 0).2)
            let cid := ((st1.pages rbid).array 0).2
            let st2 := setPageT st1 cid { st1.pages cid with parent := iterId }
            let st3 := setPageT st2 pid
              (setKeyAt (st2.pages pid) (vi + 1) ((st2.pages rbid).array 1).1)
            let st4 := setPageT st3 rbid
              (setValueAt (st3.pages rbid) 0 ((st3.pages rbid).array 1).2)
            setPageT st4 rbid (internalPushForward (st4.pages rbid))
          else
            if vi > 0 then
              let st1 := setPageT st lbid
                (internalPushKey (st.pages lbid) ((st.pages pid).array vi).1
                  ((st.pages iterId).array 0).2)
              let cid := ((st1.pages iterId).array 0).2
              let st2 := setPageT st1 cid { st1.pages cid with parent := lbid }
              let st3 := mergeInternalLoop st2 lbid iterId 1
                ((st2.pages iterId).size - 1).toNat
              let st4 := setPageT st3 pid (internalDeleteWithValue (st3.pages pid) iterId)
              removeInParent (delPageT st4 iterId) pid c
            else
              if vi < parent.size - 1 then
                let st1 := setPageT st iterId
                  (internalPushKey (st.pages iterId) ((st.pages pid).array (vi + 1)).1
                    ((st.pages rbid).array 0).2)
                let cid := ((st1.pages rbid).array 0).2
                let st2 := setPageT st1 cid { st1.pages cid with parent := iterId }
                let st3 := mergeInternalLoop st2 iterId rbid 1
                  ((st2.pages rbid).size - 1).toNat
                let st4 := setPageT st3 pid
                  (internalDeleteWithValue (st3.pages pid) rbid)
                removeInParent (delPageT st4 rbid) pid c
              else removeInParent st pid c
      else st

/-- `BPLUSTREE_TYPE::Remove`. -/
def treeRemove (st : TreeState) (key : Int) : TreeState :=
  if st.root_page_id = INVALID_PAGE_ID then st
  else
    let lid := findLeaf st key
    let r := leafDeleteKey (st.pages lid) key
    if r.1 = -1 then st
    else
      let st1 := setPageT st lid r.2
      let lf := st1.pages lid
      if lf.parent = INVALID_PAGE_ID then
        if lf.size = 0 then
          let st2 := delPageT st1 st1.root_page_id
          { st2 with root_page_id := INVALID_PAGE_ID }
        else st1
      else
        if lf.size < lf.getMinSize then
          let pid := lf.parent
          let parent := st1.pages pid
          let vi := internalFindValue parent lid 0 parent.size.toNat
          let lbid := (parent.array (vi - 1)).2
          if vi > 0 ∧ (st1.pages lbid).size > (st1.pages lbid).getMinSize then
            let size := (st1.pages lbid).size
            let st2 := setPageT st1 lid
              (leafPushKey (st1.pages lid) ((st1.pages lbid).array (size - 1)).1
                ((st1.pages lbid).array (size - 1)).2).2
            let st3 := setPageT st2 lbid
              { st2.pages lbid with size := (st2.pages lbid).size - 1 }
            setPageT st3 pid (setKeyAt (st3.pages pid) vi ((st3.pages lid).array 0).1)
          else
            let rbid := (parent.array (vi + 1)).2
            if vi < parent.size - 1 ∧
                (st1.pages rbid).size > (st1.pages rbid).getMinSize then
              let st2 := setPageT st1 lid
                (leafPushKey (st1.pages lid) ((st1.pages rbid).array 0).1
                  ((st1.pages rbid).array 0).2).2
              let st3 := setPageT st2 rbid
                (leafDeleteKey (st2.pages rbid) ((st2.pages rbid).array 0).1).2
              setPageT st3 pid
                (setKeyAt (st3.pages pid) (vi + 1) ((st3.pages rbid).array 0).1)
            else
              if vi > 0 then
                let st2 := setPageT st1 lbid
                  { st1.pages lbid with next := (st1.pages lid).next }
                let st3 := mergeLeafLoop st2 lbid lid 0 ((st2.pages lid).size).toNat
                let st4 := setPageT st3 pid (internalDeleteWithValue (st3.pages pid) lid)
                removeInParent (delPageT st4 lid) pid (st4.nextPage.toNat + 1)
              else
                if vi < parent.size - 1 then
                  let st2 := setPageT st1 lid
                    { st1.pages lid with next := (st1.pages rbid).next }
                  let st3 := mergeLeafLoop st2 lid rbid 0 ((st2.pages rbid).size).toNat
                  let st4 := setPageT st3 pid
                    (internalDeleteWithValue (st3.pages pid) rbid)
                  removeInParent (delPageT st4 rbid) pid (st4.nextPage.toNat + 1)
                else removeInParent st1 pid (st1.nextPage.toNat + 1)
        else st1

/-- The equality scan of `BPLUSTREE_TYPE::Begin(key)` (`index` from 0
while `index < size`, stopping at the first key equal to the target;
`size` when absent). -/
def beginScan (n : Node) (key : Int) (i : Int) : Nat → Int
  | 0 => i
  | c + 1 => if (n.array i).1 = key then i else beginScan n key (i + 1) c

/-- `BPLUSTREE_TYPE::Begin(key)`: the iterator as
`some (leaf page id, index)`, or `none` for the null iterator of an
empty tree. -/
def treeBegin (st : TreeState) (key : Int) : Option (Int × Int) :=
  if st.root_page_id = INVALID_PAGE_ID then none
  else
    let lid := findLeaf st key
    let n := st.pages lid
    some (lid, beginScan n key 0 n.size.toNat)

/-- `IndexIterator::operator++`: `none` is the end iterator
(`iter_ == nullptr`). -/
def iterNext (st : TreeState) (lid idx : Int) : Option (Int × Int) :=
  let n := st.pages lid
  let idx1 := idx + 1
  if idx1 ≥ n.size then
    if n.next ≠ INVALID_PAGE_ID then some (n.next, 0) else none
  else some (lid, idx1)

/-- Drive the iterator to the end, collecting `*it` before each `++`.
The dereference is `GetKeyValue(index_)` — a raw read of the physical
array slot, also when `index_` equals the leaf's size. -/
def iterEnum (st : TreeState) : Option (Int × Int) → Nat → List (Int × Int)
  | none, _ => []
  | some _, 0 => []
  | some (lid, idx), c + 1 =>
    ((st.pages lid).array idx) :: iterEnum st (iterNext st lid idx) c

/-- The first `size` keys of a page — its live contents. -/
def nodeKeys (n : Node) : List Int :=
  (List.range n.size.toNat).map (fun i => (n.array i).1)

/-- The first `size` child page ids of an internal page. -/
def childIds (n : Node) : List Int :=
  (List.range n.size.toNat).map (fun i => (n.array i).2)

def insertAll (st : TreeState) (ks : List Int) : TreeState :=
  ks.foldl (fun s k => (treeInsert s k k).2) st

set_option maxRecDepth 10000

/-- The C2 scenario: `leaf_max_size = 3` (and `internal_max_size = 3`),
keys 1, 2, 3 inserted into an empty tree. -/
def c2Tree3 : TreeState := insertAll (TreeState.init 3 3) [1, 2, 3]

def c2Tree4 : TreeState := insertAll c2Tree3 [4]

/-- C2 (amended).  With `leaf_max_size = 3`, inserting 1, 2, 3 splits
the leaf at `mid = size / 2 = 1`: the left leaf keeps only [1] (not
[1, 2]), the right leaf gets [2, 3], and the new root separates them
with key 2.  Inserting 4 is routed to the right leaf, momentarily
extends it to [2, 3, 4], and triggers a second split at `mid = 1`,
leaving leaves [1], [2], [3, 4] under root keys 2, 3. -/
theorem C2_first_split :
    ((childIds (c2Tree3.pages c2Tree3.root_page_id)).map
        (fun c => nodeKeys (c2Tree3.pages c)) = [[1], [2, 3]] ∧
      ((c2Tree3.pages c2Tree3.root_page_id).array 1).1 = 2) ∧
    (findLeaf c2Tree3 4 = ((c2Tree3.pages c2Tree3.root_page_id).array 1).2 ∧
      nodeKeys (leafPushKey (c2Tree3.pages (findLeaf c2Tree3 4)) 4 4).2 = [2, 3, 4]) ∧
    ((childIds (c2Tree4.pages c2Tree4.root_page_id)).map
        (fun c => nodeKeys (c2Tree4.pages c)) = [[1], [2], [3, 4]] ∧
      ((c2Tree4.pages c2Tree4.root_page_id).array 1).1 = 2 ∧
      ((c2Tree4.pages c2Tree4.root_page_id).array 2).1 = 3) := by
  refine ⟨⟨by decide, by decide⟩, ⟨by decide, by decide⟩, by decide, by decide, by decide⟩

/-- Counterexample to C2 as stated: after inserting 1, 2, 3 the left
leaf holds [1], not [1, 2] — the split keeps `mid = 1` entries on the
left, so the claimed left leaf [1, 2] is wrong. -/
theorem C2_counterexample :
    (childIds (c2Tree3.pages c2Tree3.root_page_id)).map
        (fun c => nodeKeys (c2Tree3.pages c)) = [[1], [2, 3]] ∧
    ([[1], [2, 3]] : List (List Int)) ≠ [[1, 2], [2, 3]] := by
  refine ⟨by decide, by decide⟩

def c9Tree1 : TreeState := (treeInsert (TreeState.init 3 3) 1 1).2

def c9Tree2 : TreeState := treeRemove c9Tree1 1

/-- C9 fails: removing the last key sets `root_page_id_` to
`INVALID_PAGE_ID` but the `UpdateRootPageId` call on that path is
commented out (`b_plus_tree.cpp`, `Remove`), so the header page still
records the deleted page as the tree's root. -/
theorem C9_header_not_updated :
    c9Tree1.root_page_id = 1 ∧ c9Tree1.headerRecord = some 1 ∧
    c9Tree2.root_page_id = INVALID_PAGE_ID ∧
    c9Tree2.headerRecord = some 1 ∧
    some (1 : Int) ≠ some INVALID_PAGE_ID := by
  refine ⟨by decide, by decide, by decide, by decide, by decide⟩

theorem beginScan_spec (n : Node) (key : Int) (cnt : Nat) (i : Int) :
    i ≤ beginScan n key i cnt ∧ beginScan n key i cnt ≤ i + cnt ∧
    (∀ j : Int, i ≤ j → j < beginScan n key i cnt → (n.array j).1 ≠ key) ∧
    (beginScan n key i cnt < i + cnt → (n.array (beginScan n key i cnt)).1 = key) := by
  induction cnt generalizing i with
  | zero =>
    refine ⟨le_refl i, by simp [beginScan], ?_, ?_⟩
    · intro j h1 h2
      exact absurd (lt_of_le_of_lt h1 h2) (by simp [beginScan])
    · intro h
      exact absurd h (by simp [beginScan])
  | succ c ih =>
    by_cases hk : (n.array i).1 = key
    · have hb : beginScan n key i (c + 1) = i := by
        unfold beginScan
        rw [if_pos hk]
      refine ⟨le_of_eq hb.symm, ?_, ?_, ?_⟩
      · rw [hb]; omega
      · intro j h1 h2
        rw [hb] at h2
        omega
      · intro _
        rw [hb]
        exact hk
    · have hb : beginScan n key i (c + 1) = beginScan n key (i + 1) c := by
        simp only [beginScan]
        rw [if_neg hk]
      obtain ⟨ih1, ih2, ih3, ih4⟩ := ih (i + 1)
      refine ⟨by omega, by omega, ?_, ?_⟩
      · intro j h1 h2
        rw [hb] at h2
        rcases eq_or_lt_of_le h1 with h | h
        · rw [← h]; exact hk
        · exact ih3 j (by omega) h2
      · intro h
        rw [hb] at h ⊢
        exact ih4 (by omega)

/-- The C4 scenario: a single-leaf tree holding keys 1 and 3. -/
def c4Tree : TreeState := insertAll (TreeState.init 3 3) [1, 3]

/-- C4 (amended).  `Begin(key)` does not seek the least key ≥ `key`:
its scan looks for an exact match, so the iterator is positioned at the
first index whose key equals `key` when one exists, and at the leaf's
`size` (one past the live entries) otherwise.  When the key is present
the iterator enumerates the tail correctly, as on the concrete tree
[1, 3] with key 3. -/
theorem C4_range_begin :
    (∀ (st : TreeState) (k lid idx : Int),
      st.root_page_id ≠ INVALID_PAGE_ID →
      treeBegin st k = some (lid, idx) →
      lid = findLeaf st k ∧ 0 ≤ idx ∧
      idx ≤ (((st.pages lid).size).toNat : Int) ∧
      (∀ j : Int, 0 ≤ j → j < idx → ((st.pages lid).array j).1 ≠ k) ∧
      (idx < (((st.pages lid).size).toNat : Int) → ((st.pages lid).array idx).1 = k)) ∧
    iterEnum c4Tree (treeBegin c4Tree 3) 10 = [(3, 3)] := by
  constructor
  · intro st k lid idx hroot hb
    have hun : treeBegin st k =
        some (findLeaf st k,
          beginScan (st.pages (findLeaf st k)) k 0
            ((st.pages (findLeaf st k)).size).toNat) := by
      unfold treeBegin
      rw [if_neg hroot]
    rw [hun] at hb
    have hb2 := Option.some.inj hb
    have hlid : lid = findLeaf st k := (congrArg Prod.fst hb2).symm
    have hidx : beginScan (st.pages (findLeaf st k)) k 0
        ((st.pages (findLeaf st k)).size).toNat = idx := congrArg Prod.snd hb2
    subst hlid
    obtain ⟨s1, s2, s3, s4⟩ := beginScan_spec (st.pages (findLeaf st k)) k
      ((st.pages (findLeaf st k)).size).toNat 0
    rw [hidx] at s1 s2 s3 s4
    refine ⟨rfl, s1, by omega, ?_, ?_⟩
    · intro j hj hlt
      exact s3 j hj hlt
    · intro h
      exact s4 (by omega)
  · decide

/-- Witness for C4 on the concrete single-leaf tree [1, 3] with key 3:
the iterator lands on index 1, where the key is 3. -/
theorem C4_witness :
    treeBegin c4Tree 3 = some (1, 1) ∧
    (1 = findLeaf c4Tree 3 ∧ (0 : Int) ≤ 1 ∧
      (1 : Int) ≤ (((c4Tree.pages 1).size).toNat : Int) ∧
      (∀ j : Int, 0 ≤ j → j < 1 → ((c4Tree.pages 1).array j).1 ≠ 3) ∧
      ((1 : Int) < (((c4Tree.pages 1).size).toNat : Int) →
        ((c4Tree.pages 1).array 1).1 = 3)) :=
  ⟨by decide, C4_range_begin.1 c4Tree 3 1 1 (by decide) (by decide)⟩

/-- Counterexample to C4 as stated: on the tree [1, 3], `Begin(2)`
positions the iterator at index 2 — the leaf's size — because no entry
equals 2.  The live entry (3, 3), whose key 3 ≥ 2 the claim promises,
is never enumerated; the iterator instead dereferences the dead slot
beyond the live entries and yields (0, 0). -/
theorem C4_counterexample :
    nodeKeys (c4Tree.pages 1) = [1, 3] ∧
    (c4Tree.pages 1).size = 2 ∧
    treeBegin c4Tree 2 = some (1, 2) ∧
    iterEnum c4Tree (treeBegin c4Tree 2) 10 = [(0, 0)] ∧
    ((3 : Int), (3 : Int)) ∉ iterEnum c4Tree (treeBegin c4Tree 2) 10 ∧
    (2 : Int) ≤ 3 := by
  refine ⟨by decide, by decide, by decide, by decide, by decide, by decide⟩

/-- The live keys of a leaf match the list `ks` slot for slot. -/
def matchesKeys (n : Node) (ks : List Int) : Prop :=
  n.size = (ks.length : Int) ∧
  ∀ i : Nat, i < ks.length → (n.array (i : Int)).1 = ks.getD i 0

theorem sorted_getD_lt (ks : List Int) (h : ks.Sorted (· < ·)) :
    ∀ i j : Nat, i < j → j < ks.length → ks.getD i 0 < ks.getD j 0 := by
  induction ks with
  | nil =>
    intro i j _ hj
    simp at hj
  | cons x rest ih =>
    intro i j hij hj
    have hs := List.sorted_cons.mp h
    cases i with
    | zero =>
      cases j with
      | zero => omega
      | succ j' =>
        simp only [List.getD_cons_zero, List.getD_cons_succ]
        exact hs.1 _ (getD_mem_of_lt rest j' 0 (by simpa using hj))
    | succ i' =>
      cases j with
      | zero => omega
      | succ j' =>
        simp only [List.getD_cons_succ]
        exact ih hs.2 i' j' (by omega) (by simpa using hj)

/-- Loop invariant of the leaf binary search: everything left of `l` is
≤ the key, everything right of `r` is greater; the loop exits with `r`
the last position whose key is ≤ the target (−1 when there is none). -/
theorem leafFindKeyLoop_spec (n : Node) (ks : List Int) (key : Int)
    (hsort : ks.Sorted (· < ·))
    (hk : ∀ i : Nat, i < ks.length → (n.array (i : Int)).1 = ks.getD i 0) :
    ∀ (fuel : Nat) (l r : Int), 0 ≤ l → -1 ≤ r → r < (ks.length : Int) →
      (∀ j : Int, 0 ≤ j → j < l → (n.array j).1 ≤ key) →
      (∀ j : Int, r < j → j < (ks.length : Int) → key < (n.array j).1) →
      r - l + 1 < (fuel : Int) →
      -1 ≤ leafFindKeyLoop n key l r fuel ∧
      leafFindKeyLoop n key l r fuel < (ks.length : Int) ∧
      (∀ j : Int, 0 ≤ j → j ≤ leafFindKeyLoop n key l r fuel → (n.array j).1 ≤ key) ∧
      (∀ j : Int, leafFindKeyLoop n key l r fuel < j → j < (ks.length : Int) →
        key < (n.array j).1) := by
  have key_eq : ∀ j : Int, 0 ≤ j → j < (ks.length : Int) →
      (n.array j).1 = ks.getD j.toNat 0 := by
    intro j h1 h2
    have hje : ((j.toNat : Nat) : Int) = j := Int.toNat_of_nonneg h1
    rw [← hje]
    exact hk j.toNat (by omega)
  have harr_lt : ∀ i j : Int, 0 ≤ i → i < j → j < (ks.length : Int) →
      (n.array i).1 < (n.array j).1 := by
    intro i j h1 h2 h3
    rw [key_eq i h1 (by omega), key_eq j (by omega) h3]
    exact sorted_getD_lt ks hsort i.toNat j.toNat (by omega) (by omega)
  intro fuel
  induction fuel with
  | zero =>
    intro l r hl hr hrlen hinv1 hinv2 hfuel
    simp only [leafFindKeyLoop]
    refine ⟨hr, hrlen, ?_, hinv2⟩
    intro j hj hjr
    exact hinv1 j hj (by omega)
  | succ c ih =>
    intro l r hl hr hrlen hinv1 hinv2 hfuel
    by_cases hlr : l ≤ r
    · have hred : leafFindKeyLoop n key l r (c + 1) =
          (if (n.array (l + (r - l) / 2)).1 > key
           then leafFindKeyLoop n key l (l + (r - l) / 2 - 1) c
           else leafFindKeyLoop n key (l + (r - l) / 2 + 1) r c) := by
        simp only [leafFindKeyLoop]
        rw [if_pos hlr]
      have hmid1 : l ≤ l + (r - l) / 2 := by omega
      have hmid2 : l + (r - l) / 2 ≤ r := by omega
      by_cases hc2 : (n.array (l + (r - l) / 2)).1 > key
      · rw [hred, if_pos hc2]
        refine ih l (l + (r - l) / 2 - 1) hl (by omega) (by omega) hinv1 ?_ (by omega)
        intro j hj hjlen
        by_cases hjr : r < j
        · exact hinv2 j hjr hjlen
        · rcases eq_or_lt_of_le (show l + (r - l) / 2 ≤ j by omega) with he | hlt2
          · rw [← he]
            exact hc2
          · exact lt_trans hc2 (harr_lt (l + (r - l) / 2) j (by omega) hlt2 hjlen)
      · rw [hred, if_neg hc2]
        push_neg at hc2
        refine ih (l + (r - l) / 2 + 1) r (by omega) hr hrlen ?_ hinv2 (by omega)
        intro j hj hjl
        by_cases hjl2 : j < l
        · exact hinv1 j hj hjl2
        · rcases eq_or_lt_of_le (show j ≤ l + (r - l) / 2 by omega) with he | hlt2
          · rw [he]
            exact hc2
          · exact le_of_lt (lt_of_lt_of_le (harr_lt j (l + (r - l) / 2) hj hlt2 (by omega))
              hc2)
    · have hred : leafFindKeyLoop n key l r (c + 1) = r := by
        simp only [leafFindKeyLoop]
        rw [if_neg hlr]
      rw [hred]
      refine ⟨hr, hrlen, ?_, hinv2⟩
      intro j hj hjr
      exact hinv1 j hj (by omega)

theorem leafFindKey_spec (n : Node) (ks : List Int) (key : Int)
    (hsort : ks.Sorted (· < ·)) (hm : matchesKeys n ks) :
    -1 ≤ leafFindKey n key ∧ leafFindKey n key < (ks.length : Int) ∧
    (∀ j : Int, 0 ≤ j → j ≤ leafFindKey n key → (n.array j).1 ≤ key) ∧
    (∀ j : Int, leafFindKey n key < j → j < (ks.length : Int) →
      key < (n.array j).1) := by
  obtain ⟨hsize, hk⟩ := hm
  exact leafFindKeyLoop_spec n ks key hsort hk (n.size.toNat + 1) 0 (n.size - 1)
    (le_refl 0) (by omega) (by omega)
    (by intro j h1 h2; omega)
    (by intro j h1 h2; exact absurd h2 (by omega))
    (by omega)

theorem mem_exists_getD {α : Type} (l : List α) (b : α) (d : α) (h : b ∈ l) :
    ∃ i : Nat, i < l.length ∧ l.getD i d = b := by
  induction l with
  | nil => simp at h
  | cons x rest ih =>
    rcases List.mem_cons.mp h with he | hm
    · exact ⟨0, by simp, by simp [he.symm]⟩
    · obtain ⟨i, h1, h2⟩ := ih hm
      exact ⟨i + 1, by simpa using h1, by simpa using h2⟩

/-- Strict monotonicity of the physical keys over the live window. -/
theorem matches_arr_lt (n : Node) (ks : List Int) (hsort : ks.Sorted (· < ·))
    (hm : matchesKeys n ks) :
    ∀ i j : Int, 0 ≤ i → i < j → j < (ks.length : Int) →
      (n.array i).1 < (n.array j).1 := by
  intro i j h1 h2 h3
  have hie : ((i.toNat : Nat) : Int) = i := Int.toNat_of_nonneg h1
  have hje : ((j.toNat : Nat) : Int) = j := Int.toNat_of_nonneg (by omega)
  rw [← hie, ← hje, hm.2 i.toNat (by omega), hm.2 j.toNat (by omega)]
  exact sorted_getD_lt ks hsort i.toNat j.toNat (by omega) (by omega)

/-- When the key is present in a sorted leaf, the binary search lands
exactly on its slot. -/
theorem leafFindKey_mem (n : Node) (ks : List Int) (key : Int)
    (hsort : ks.Sorted (· < ·)) (hm : matchesKeys n ks) (hmem : key ∈ ks) :
    ∃ i : Nat, i < ks.length ∧ leafFindKey n key = (i : Int) ∧ ks.getD i 0 = key := by
  obtain ⟨s1, s2, s3, s4⟩ := leafFindKey_spec n ks key hsort hm
  obtain ⟨i, hi, hgd⟩ := mem_exists_getD ks key 0 hmem
  have hai : (n.array (i : Int)).1 = key := by rw [hm.2 i hi, hgd]
  refine ⟨i, hi, ?_, hgd⟩
  rcases lt_trichotomy (leafFindKey n key) (i : Int) with h | h | h
  · exact absurd (s4 (i : Int) h (by omega)) (by rw [hai]; omega)
  · exact h
  · have hlt := matches_arr_lt n ks hsort hm (i : Int) (leafFindKey n key)
      (by omega) h s2
    have hle := s3 (leafFindKey n key) (by omega) (le_refl _)
    rw [hai] at hlt
    omega

/-- Pushing a key that is already present leaves the leaf untouched and
reports failure. -/
theorem leafPushKey_mem (n : Node) (ks : List Int) (key val : Int)
    (hsort : ks.Sorted (· < ·)) (hm : matchesKeys n ks) (hmem : key ∈ ks) :
    leafPushKey n key val = (false, n) := by
  obtain ⟨i, hi, hfk, hgd⟩ := leafFindKey_mem n ks key hsort hm hmem
  have hG : leafFindKey n key > -1 ∧ (n.array (leafFindKey n key)).1 = key := by
    refine ⟨by omega, ?_⟩
    rw [hfk, hm.2 i hi, hgd]
  simp only [leafPushKey]
  rw [if_pos hG]

/-- Deleting an absent key is a no-op returning −1. -/
theorem leafDeleteKey_notMem (n : Node) (ks : List Int) (key : Int)
    (hsort : ks.Sorted (· < ·)) (hm : matchesKeys n ks) (hnm : key ∉ ks) :
    leafDeleteKey n key = (-1, n) := by
  have hG : leafFindKey n key = -1 ∨ (n.array (leafFindKey n key)).1 ≠ key := by
    obtain ⟨s1, s2, s3, s4⟩ := leafFindKey_spec n ks key hsort hm
    rcases eq_or_lt_of_le s1 with h | h
    · exact Or.inl h.symm
    · right
      intro he
      apply hnm
      have hie : ((leafFindKey n key).toNat : Int) = leafFindKey n key :=
        Int.toNat_of_nonneg (by omega)
      rw [← he, ← hie, hm.2 (leafFindKey n key).toNat (by omega)]
      exact getD_mem_of_lt ks (leafFindKey n key).toNat 0 (by omega)
  simp only [leafDeleteKey]
  rw [if_pos hG]

theorem updateRootPageId_fields (s : TreeState) (b : Bool) :
    (updateRootPageId s b).root_page_id = s.root_page_id ∧
    (updateRootPageId s b).pages = s.pages ∧
    (updateRootPageId s b).nextPage = s.nextPage ∧
    (updateRootPageId s b).leaf_max_size = s.leaf_max_size := by
  unfold updateRootPageId
  split
  · exact ⟨rfl, rfl, rfl, rfl⟩
  · split
    · exact ⟨rfl, rfl, rfl, rfl⟩
    · exact ⟨rfl, rfl, rfl, rfl⟩

